import Mathlib

/-!
# minotaur-cpp: the path-following controller `Procedure`

A shallow embedding of `src/code/compstate/procedure.cpp`, and of the path
conversions of `src/code/camera/imageviewer.cpp`.

* `double` is embedded as `ℚ` with exact arithmetic: rounding, NaN and
  infinities are outside the embedding.  `hypot(x, y) < r` is therefore the
  exact comparison `0 < r ∧ x² + y² < r²`.  The exception is `set_path`
  against `add_path_point`, which differ through rounding alone: for them
  each operation is rounded to binary64 (section "Double arithmetic").
* `std::size_t` is `Nat`; `++m_index` only runs after `m_path[m_index]` was
  read, so the index stays below the path length and cannot wrap.
* `static_cast<int>` of a `double` is truncation toward zero (values out of the
  range of `int` are undefined in C++ and are truncated here all the same).
* An out-of-bounds `m_path[...]` is undefined behaviour in C++: the embedding
  returns `none` there, so `movement_loop` has type `Sys → Option Sys`.
* Qt signals and the calls of `Controller::move` are logged in the state.
  The status labels (`setText`) are presentation only and are left out.
-/

namespace Minotaur

/-! ## Vectors and rectangles -/

/-- Modelled from the spec: `vector2d`, a 2-D point with `double` coordinates
(the class itself is not under `src/`). -/
structure vector2d where
  x : ℚ
  y : ℚ
deriving DecidableEq

/-- Modelled from the spec: `vector2i`, the signed 2-D integer vector taken by
`Controller::move` (the class itself is not under `src/`). -/
structure vector2i where
  x : Int
  y : Int
deriving DecidableEq

/-- Modelled from the spec: `operator-` of `vector2d`, component by component. -/
def vector2d.sub (a b : vector2d) : vector2d :=
  ⟨a.x - b.x, a.y - b.y⟩

instance : Sub vector2d := ⟨vector2d.sub⟩

/-- Modelled from the spec: `vector2d::norm_sq`, the squared Euclidean length
(the spec's "squared distance"). -/
def vector2d.norm_sq (a : vector2d) : ℚ :=
  a.x * a.x + a.y * a.y

/-- Modelled from the spec: `rect2d`, the bounding box as "four scalar edges". -/
structure rect2d where
  left : ℚ
  top : ℚ
  right : ℚ
  bottom : ℚ
deriving DecidableEq

namespace algo

/-- Modelled from the spec: `algo::rect_center` (not under `src/`), the centre
of a bounding box. -/
def rect_center (r : rect2d) : vector2d :=
  ⟨(r.left + r.right) / 2, (r.top + r.bottom) / 2⟩

/-- Modelled from the spec: `algo::perp_intersect` (not under `src/`), "the
perpendicular foot-of-intersection of `current` onto the line through
`source`→`target`".  For `source = target` there is no line; the quotient is
then `0` in `ℚ` and the foot is `source`. -/
def perp_intersect (c p0 p1 : vector2d) : vector2d :=
  let dx := p1.x - p0.x
  let dy := p1.y - p0.y
  let k := ((c.x - p0.x) * dx + (c.y - p0.y) * dy) / (dx * dx + dy * dy)
  ⟨p0.x + k * dx, p0.y + k * dy⟩

end algo

/-- The comparison `hypot(x, y) < r` of exact arithmetic:
`sqrt(x² + y²) < r` holds exactly when `0 < r` and `x² + y² < r²`. -/
def hypot_lt (x y r : ℚ) : Prop :=
  0 < r ∧ x * x + y * y < r * r

instance (x y r : ℚ) : Decidable (hypot_lt x y r) := by
  unfold hypot_lt
  infer_instance

/-- The conversion `static_cast<int>(d)`: truncation toward zero. -/
def static_cast_int (d : ℚ) : Int :=
  Int.tdiv d.num (d.den : Int)

/-! ## The shared tracking state -/

/-- Modelled from the spec: the part of `CompetitionState` (not under `src/`)
that holds the robot box, "a single point-in-time record of the last known
actuator bounding box, a freshness flag, and a validity flag". -/
structure CompetitionState where
  m_robot_box : rect2d
  m_robot_box_fresh : Bool
  m_robot_box_valid : Bool
deriving DecidableEq

namespace CompetitionState

/-- Modelled from the spec: `is_robot_box_fresh`, the spec's `peek_fresh()`,
which reads the freshness flag without consuming it. -/
def is_robot_box_fresh (s : CompetitionState) : Bool :=
  s.m_robot_box_fresh

/-- Modelled from the spec: `is_robot_box_valid`, which reads the validity flag. -/
def is_robot_box_valid (s : CompetitionState) : Bool :=
  s.m_robot_box_valid

/-- Modelled from the spec: `get_robot_box(consume)`.  With `consume = true` it
is the spec's `read_and_consume()`: "returns the current box, marks
fresh=false".  Without the argument (`start()`) nothing is consumed. -/
def get_robot_box (s : CompetitionState) (consume : Bool) : rect2d × CompetitionState :=
  (s.m_robot_box, if consume then { s with m_robot_box_fresh := false } else s)

/-- Modelled from the spec: the detector's `update(box)`, "sets box, marks
valid=true, fresh=true". -/
def update (s : CompetitionState) (box : rect2d) : CompetitionState :=
  { s with m_robot_box := box, m_robot_box_fresh := true, m_robot_box_valid := true }

/-- Modelled from the spec: `invalidate()`, "marks valid=false". -/
def invalidate (s : CompetitionState) : CompetitionState :=
  { s with m_robot_box_valid := false }

end CompetitionState

/-! ## The procedure -/

/-- The Qt signals of `Procedure`. -/
inductive Signal where
  | started
  | stopped
  | finished
deriving DecidableEq

/-- The data members of `Procedure`.  `m_timer` is `m_timer.isActive()`; the
weak pointer `m_sol` lives in `Sys`, with the object it points to. -/
structure Procedure where
  m_loc_accept : ℚ
  m_norm_dev : ℚ
  m_path : List vector2d
  m_index : Nat
  m_initial : vector2d
  m_timer : Bool
  m_done : Bool
deriving DecidableEq

/-- A procedure with the objects it reaches: `Main::get()->state()`, the
`Controller` behind `m_sol` (`sol_expired` is `m_sol.expired()`, `moves` the
arguments of the calls of `Controller::move`, oldest first) and the signals
emitted so far, oldest first. -/
structure Sys where
  proc : Procedure
  state : CompetitionState
  sol_expired : Bool
  moves : List vector2i
  signals : List Signal
deriving DecidableEq

namespace Procedure

/-- The constructor `Procedure::Procedure(sol, path, loc_accept, norm_dev)`,
run in a process whose tracking state is `state` and whose controller is
expired or not.  `m_initial` is default-constructed; `start()` overwrites it
before any tick reads it. -/
def construct (state : CompetitionState) (sol_expired : Bool)
    (path : List vector2d) (loc_accept norm_dev : ℚ) : Sys :=
  { proc :=
      { m_loc_accept := loc_accept
        m_norm_dev := norm_dev
        m_path := path
        m_index := 0
        m_initial := ⟨0, 0⟩
        m_timer := false
        m_done := false }
    state := state
    sol_expired := sol_expired
    moves := []
    signals := [] }

/-- Member `Procedure::is_done`. -/
def is_done (w : Sys) : Bool :=
  w.proc.m_done

/-- Member `Procedure::is_stopped`. -/
def is_stopped (w : Sys) : Bool :=
  !w.proc.m_timer

/-- Member `Procedure::start`. -/
def start (w : Sys) : Sys :=
  let r := w.state.get_robot_box false
  { w with
    proc := { w.proc with m_timer := true, m_initial := algo.rect_center r.1 }
    state := r.2
    signals := w.signals ++ [Signal.started] }

/-- Member `Procedure::stop`. -/
def stop (w : Sys) : Sys :=
  { w with
    proc := { w.proc with m_timer := false }
    signals := w.signals ++ [Signal.stopped] }

/-- Member `Procedure::move_right`: right is `+X`. -/
def move_right (w : Sys) (estimated_power : ℚ) : Sys :=
  if w.sol_expired then w
  else { w with moves := w.moves ++ [⟨static_cast_int estimated_power, 0⟩] }

/-- Member `Procedure::move_left`: left is `-X`. -/
def move_left (w : Sys) (estimated_power : ℚ) : Sys :=
  if w.sol_expired then w
  else { w with moves := w.moves ++ [⟨-static_cast_int estimated_power, 0⟩] }

/-- Member `Procedure::move_up`: up is `-Y`. -/
def move_up (w : Sys) (estimated_power : ℚ) : Sys :=
  if w.sol_expired then w
  else { w with moves := w.moves ++ [⟨0, -static_cast_int estimated_power⟩] }

/-- Member `Procedure::move_down`: down is `+Y`. -/
def move_down (w : Sys) (estimated_power : ℚ) : Sys :=
  if w.sol_expired then w
  else { w with moves := w.moves ++ [⟨0, static_cast_int estimated_power⟩] }

/-- Member `Procedure::movement_loop`, one movement step.  The result is `none`
when `m_path[m_index]` or `m_path[m_index - 1]` is read out of bounds. -/
def movement_loop (w : Sys) : Option Sys :=
  if w.proc.m_index = w.proc.m_path.length ∨ w.sol_expired = true then
    some { w with
      proc := { w.proc with m_timer := false, m_done := true }
      signals := w.signals ++ [Signal.finished] }
  else if w.state.is_robot_box_fresh = false ∨ w.state.is_robot_box_valid = false then
    some w
  else
    let r := w.state.get_robot_box true
    let w1 : Sys := { w with state := r.2 }
    let center := algo.rect_center r.1
    match w.proc.m_path[w.proc.m_index]?,
      (if w.proc.m_index > 0 then w.proc.m_path[w.proc.m_index - 1]?
        else some w.proc.m_initial) with
    | some target, some source =>
      let err_x := target.x - center.x
      let err_y := target.y - center.y
      if hypot_lt err_x err_y w.proc.m_loc_accept then
        some { w1 with proc := { w1.proc with m_index := w1.proc.m_index + 1 } }
      else
        let intersect := algo.perp_intersect center source target
        let norm_diff := intersect - center
        let norm_diff_sq := norm_diff.norm_sq
        let over := decide (norm_diff_sq > w.proc.m_norm_dev * w.proc.m_norm_dev)
        let target := if over then intersect else target
        let err_x := if over then norm_diff.x else err_x
        let err_y := if over then norm_diff.y else err_y
        if |err_x| > |err_y| then
          let estimated_power := |err_x|
          if target.x > center.x then some (move_right w1 estimated_power)
          else some (move_left w1 estimated_power)
        else
          let estimated_power := |err_y|
          if target.y > center.y then some (move_down w1 estimated_power)
          else some (move_up w1 estimated_power)
    | _, _ => none

/-- Member `Procedure::timerEvent` for the events Qt delivers to the
procedure: an event carrying the id of `m_timer` exists only while the timer
is active, and it runs one movement step. -/
def timerEvent (w : Sys) : Option Sys :=
  if w.proc.m_timer then movement_loop w else some w

end Procedure

/-! ## Runs -/

/-- What can happen to a procedure and the objects around it: the three
operations on the procedure (`tick` is a timer event), the detector's
`update` and `invalidate`, and the destruction of the controller. -/
inductive Event where
  | start
  | stop
  | tick
  | update (box : rect2d)
  | invalidate
  | expire
deriving DecidableEq

/-- One event. -/
def step (w : Sys) : Event → Option Sys
  | Event.start => some (Procedure.start w)
  | Event.stop => some (Procedure.stop w)
  | Event.tick => Procedure.timerEvent w
  | Event.update box => some { w with state := w.state.update box }
  | Event.invalidate => some { w with state := w.state.invalidate }
  | Event.expire => some { w with sol_expired := true }

/-- A sequence of events, oldest first. -/
def run (w : Sys) : List Event → Option Sys
  | [] => some w
  | e :: es => (step w e).bind fun w1 => run w1 es

/-! ## Definitions used to state the properties -/

/-- The state after `get_robot_box(true)`: the box has been read and its
freshness consumed. -/
def consume_box (w : Sys) : Sys :=
  { w with state := (w.state.get_robot_box true).2 }

/-- The robot position a tick reads: the centre of the robot box. -/
def current (w : Sys) : vector2d :=
  algo.rect_center w.state.m_robot_box

/-- The movement decision in the spec's words (step 6 of the movement step):
the axis is horizontal when `|err_x| > |err_y|` and vertical otherwise, the
direction is that of `target` seen from `current`, and the power is the
dominant error magnitude converted to `int`. -/
def axis_command (target current err : vector2d) : vector2i :=
  if |err.x| > |err.y| then
    if target.x > current.x then ⟨static_cast_int |err.x|, 0⟩
    else ⟨-static_cast_int |err.x|, 0⟩
  else
    if target.y > current.y then ⟨0, static_cast_int |err.y|⟩
    else ⟨0, -static_cast_int |err.y|⟩

/-- The events that come from outside the procedure. -/
def Event.outside : Event → Bool
  | Event.update _ => true
  | Event.invalidate => true
  | Event.expire => true
  | _ => false

/-- A detector update followed by a timer event, once for each box. -/
def fresh_ticks : List rect2d → List Event
  | [] => []
  | b :: bs => Event.update b :: Event.tick :: fresh_ticks bs

/-- The centre of box `b` is within the acceptance radius `r` of waypoint `p`. -/
def near (r : ℚ) (p : vector2d) (b : rect2d) : Prop :=
  hypot_lt (p.x - (algo.rect_center b).x) (p.y - (algo.rect_center b).y) r

/-! ## Concrete inputs -/

/-- A box of side 4 centred at `(x, y)`. -/
def box_at (x y : ℚ) : rect2d :=
  ⟨x - 2, y - 2, x + 2, y + 2⟩

/-- The path of the spec's examples. -/
def demo_path : List vector2d :=
  [⟨100, 0⟩, ⟨100, 100⟩]

/-- A running procedure on `demo_path` at index 0: acceptance radius 5,
deviation threshold 20, initial position `(0, 0)`, a live controller. -/
def demo_sys (box : rect2d) (fresh valid : Bool) : Sys :=
  { proc :=
      { m_loc_accept := 5
        m_norm_dev := 20
        m_path := demo_path
        m_index := 0
        m_initial := ⟨0, 0⟩
        m_timer := true
        m_done := false }
    state := ⟨box, fresh, valid⟩
    sol_expired := false
    moves := []
    signals := [] }

/-- A running procedure half a unit left of its only waypoint `(1/2, 0)`, with
acceptance radius 1/4. -/
def half_sys : Sys :=
  { proc :=
      { m_loc_accept := 1 / 4
        m_norm_dev := 20
        m_path := [⟨1 / 2, 0⟩]
        m_index := 0
        m_initial := ⟨0, 0⟩
        m_timer := true
        m_done := false }
    state := ⟨box_at 0 0, true, true⟩
    sol_expired := false
    moves := []
    signals := [] }

/-- In the run of `evs` from `w`, `start()` is never called on a procedure
that is done. -/
def no_restart (w : Sys) : List Event → Prop
  | [] => True
  | e :: es =>
    (e = Event.start → Procedure.is_done w = false) ∧
      match step w e with
      | some w1 => no_restart w1 es
      | none => True

/-! ## The image viewer

The path conversions of `src/code/camera/imageviewer.cpp`. -/

/-- Modelled from the spec: the part of `CompetitionState` (not under `src/`)
that holds the path, "an ordered, insertion-order-significant sequence of 2-D
points". -/
structure PathState where
  m_path : List vector2d
deriving DecidableEq

namespace PathState

/-- Modelled from the spec: `clear_path()`, which empties the path. -/
def clear_path (_s : PathState) : PathState :=
  ⟨[]⟩

/-- Modelled from the spec: `append_path(x, y)`, which adds the point at the
end of the path. -/
def append_path (s : PathState) (x y : ℚ) : PathState :=
  ⟨s.m_path ++ [⟨x, y⟩]⟩

end PathState

/-- What the path conversions read of an `ImageViewer`:
`m_preprocessor.get_zoom_factor()` and `m_converter.get_previous_scale()`. -/
structure ImageViewer where
  zoom_factor : ℚ
  previous_scale : ℚ
deriving DecidableEq

namespace ImageViewer

/-- Member `ImageViewer::add_path_point`. -/
def add_path_point (v : ImageViewer) (state : PathState) (pixel_x pixel_y : ℚ) :
    PathState :=
  let combined_scale := v.zoom_factor * v.previous_scale
  let path_x := pixel_x / combined_scale
  let path_y := pixel_y / combined_scale
  state.append_path path_x path_y

end ImageViewer

/-! ## Double arithmetic

`set_path` multiplies each pixel by the rounded `1.0 / combined_scale` where
`add_path_point` divides by `combined_scale`; the two differ through rounding
alone.  For them every operation on a `double` is followed by the rounding of
IEEE 754 binary64: to the nearest value with a 53-bit significand, ties to the
even significand.  The exponent is not bounded: overflow, subnormal values and
NaN are outside the embedding.  An `int` converts to a `double` exactly. -/

/-- Rounding to the nearest integer, a tie going to the even one. -/
def round_even (x : ℚ) : Int :=
  if x - ⌊x⌋ < 1 / 2 then ⌊x⌋
  else if 1 / 2 < x - ⌊x⌋ then ⌊x⌋ + 1
  else if ⌊x⌋ % 2 = 0 then ⌊x⌋ else ⌊x⌋ + 1

/-- The `double` a real result is rounded to: for `2^e ≤ |q| < 2^(e+1)` the
nearest multiple of `2^(e-52)`, ties to even. -/
def round_binary64 (q : ℚ) : ℚ :=
  if q = 0 then 0
  else (round_even (q / 2 ^ (Int.log 2 |q| - 52)) : ℚ) * 2 ^ (Int.log 2 |q| - 52)

/-- The unit roundoff of binary64, `2^-53`. -/
def unit_roundoff : ℚ :=
  1 / 2 ^ 53

namespace ImageViewer.rounded

/-- The local `combined_scale` of `add_path_point` and `set_path`: the product
of the zoom factor and the pipeline scale, as a `double`. -/
def combined_scale (v : ImageViewer) : ℚ :=
  round_binary64 (v.zoom_factor * v.previous_scale)

/-- The local `inv_scale = 1.0 / combined_scale` of `set_path`, as a `double`. -/
def inv_scale (v : ImageViewer) : ℚ :=
  round_binary64 (1 / combined_scale v)

/-- Member `ImageViewer::add_path_point` in double arithmetic. -/
def add_path_point (v : ImageViewer) (state : PathState) (pixel_x pixel_y : ℚ) :
    PathState :=
  let combined_scale := round_binary64 (v.zoom_factor * v.previous_scale)
  let path_x := round_binary64 (pixel_x / combined_scale)
  let path_y := round_binary64 (pixel_y / combined_scale)
  state.append_path path_x path_y

/-- Member `ImageViewer::set_path` in double arithmetic. -/
def set_path (v : ImageViewer) (state : PathState) (pixel_path : List vector2i) :
    PathState :=
  let combined_scale := round_binary64 (v.zoom_factor * v.previous_scale)
  let inv_scale := round_binary64 (1 / combined_scale)
  pixel_path.foldl
    (fun st p => st.append_path (round_binary64 ((p.x : ℚ) * inv_scale))
      (round_binary64 ((p.y : ℚ) * inv_scale)))
    state.clear_path

end ImageViewer.rounded

/-! ## The movement step, case by case -/

open Procedure

theorem movement_loop_terminal (w : Sys)
    (h : w.proc.m_index = w.proc.m_path.length ∨ w.sol_expired = true) :
    movement_loop w = some { w with
      proc := { w.proc with m_timer := false, m_done := true }
      signals := w.signals ++ [Signal.finished] } := by
  unfold movement_loop
  rw [if_pos h]

theorem movement_loop_skip (w : Sys)
    (h1 : ¬ (w.proc.m_index = w.proc.m_path.length ∨ w.sol_expired = true))
    (h2 : w.state.is_robot_box_fresh = false ∨ w.state.is_robot_box_valid = false) :
    movement_loop w = some w := by
  unfold movement_loop
  rw [if_neg h1, if_pos h2]

theorem movement_loop_accept (w : Sys) (target source : vector2d)
    (h1 : ¬ (w.proc.m_index = w.proc.m_path.length ∨ w.sol_expired = true))
    (h2 : ¬ (w.state.is_robot_box_fresh = false ∨ w.state.is_robot_box_valid = false))
    (ht : w.proc.m_path[w.proc.m_index]? = some target)
    (hs : (if w.proc.m_index > 0 then w.proc.m_path[w.proc.m_index - 1]?
        else some w.proc.m_initial) = some source)
    (hacc : hypot_lt (target.x - (algo.rect_center w.state.m_robot_box).x)
      (target.y - (algo.rect_center w.state.m_robot_box).y) w.proc.m_loc_accept) :
    movement_loop w = some { consume_box w with
      proc := { w.proc with m_index := w.proc.m_index + 1 } } := by
  unfold movement_loop
  rw [if_neg h1, if_neg h2]
  simp only [ht, hs, CompetitionState.get_robot_box]
  rw [if_pos hacc]
  rfl

theorem movement_loop_decide (w : Sys) (target source : vector2d)
    (h1 : ¬ (w.proc.m_index = w.proc.m_path.length ∨ w.sol_expired = true))
    (h2 : ¬ (w.state.is_robot_box_fresh = false ∨ w.state.is_robot_box_valid = false))
    (ht : w.proc.m_path[w.proc.m_index]? = some target)
    (hs : (if w.proc.m_index > 0 then w.proc.m_path[w.proc.m_index - 1]?
        else some w.proc.m_initial) = some source)
    (hacc : ¬ hypot_lt (target.x - (algo.rect_center w.state.m_robot_box).x)
      (target.y - (algo.rect_center w.state.m_robot_box).y) w.proc.m_loc_accept) :
    movement_loop w = some { consume_box w with
      moves := w.moves ++
        [if (algo.perp_intersect (algo.rect_center w.state.m_robot_box) source target
              - algo.rect_center w.state.m_robot_box).norm_sq
            > w.proc.m_norm_dev * w.proc.m_norm_dev then
          axis_command
            (algo.perp_intersect (algo.rect_center w.state.m_robot_box) source target)
            (algo.rect_center w.state.m_robot_box)
            (algo.perp_intersect (algo.rect_center w.state.m_robot_box) source target
              - algo.rect_center w.state.m_robot_box)
        else
          axis_command target (algo.rect_center w.state.m_robot_box)
            (target - algo.rect_center w.state.m_robot_box)] } := by
  have hexp : w.sol_expired = false := by
    cases h : w.sol_expired
    · rfl
    · exact absurd (Or.inr h) h1
  unfold movement_loop
  rw [if_neg h1, if_neg h2]
  simp only [ht, hs, CompetitionState.get_robot_box]
  rw [if_neg hacc]
  simp only [move_right, move_left, move_up, move_down, hexp, consume_box, axis_command,
    CompetitionState.get_robot_box, Bool.false_eq_true, if_false]
  generalize algo.rect_center w.state.m_robot_box = c
  generalize algo.perp_intersect c source target = ft
  have hx : ∀ a b : vector2d, (a - b).x = a.x - b.x := fun _ _ => rfl
  have hy : ∀ a b : vector2d, (a - b).y = a.y - b.y := fun _ _ => rfl
  by_cases hov : (ft - c).norm_sq > w.proc.m_norm_dev * w.proc.m_norm_dev
  · simp only [hov, decide_True, if_true]
    by_cases hax : |(ft - c).x| > |(ft - c).y|
    · rw [if_pos hax, if_pos hax]
      by_cases hd : ft.x > c.x
      · rw [if_pos hd, if_pos hd]
      · rw [if_neg hd, if_neg hd]
    · rw [if_neg hax, if_neg hax]
      by_cases hd : ft.y > c.y
      · rw [if_pos hd, if_pos hd]
      · rw [if_neg hd, if_neg hd]
  · simp only [hov, decide_False, if_false, hx, hy, Bool.false_eq_true]
    by_cases hax : |target.x - c.x| > |target.y - c.y|
    · rw [if_pos hax, if_pos hax]
      by_cases hd : target.x > c.x
      · rw [if_pos hd, if_pos hd]
      · rw [if_neg hd, if_neg hd]
    · rw [if_neg hax, if_neg hax]
      by_cases hd : target.y > c.y
      · rw [if_pos hd, if_pos hd]
      · rw [if_neg hd, if_neg hd]

theorem axis_command_axis (target current err : vector2d) :
    (axis_command target current err).x = 0 ∨ (axis_command target current err).y = 0 := by
  unfold axis_command
  split_ifs <;> simp

theorem reads_in_bounds (w : Sys) (h : w.proc.m_index < w.proc.m_path.length) :
    ∃ target source, w.proc.m_path[w.proc.m_index]? = some target ∧
      (if w.proc.m_index > 0 then w.proc.m_path[w.proc.m_index - 1]?
        else some w.proc.m_initial) = some source := by
  refine ⟨w.proc.m_path[w.proc.m_index], ?_⟩
  by_cases h0 : w.proc.m_index > 0
  · have h1 : w.proc.m_index - 1 < w.proc.m_path.length := by omega
    exact ⟨w.proc.m_path[w.proc.m_index - 1], List.getElem?_eq_getElem h, by
      rw [if_pos h0]; exact List.getElem?_eq_getElem h1⟩
  · exact ⟨w.proc.m_initial, List.getElem?_eq_getElem h, by rw [if_neg h0]⟩

/-- The four ways a movement step can return. -/
theorem movement_loop_cases (w w1 : Sys) (h : movement_loop w = some w1) :
    ((w.proc.m_index = w.proc.m_path.length ∨ w.sol_expired = true) ∧
      w1 = { w with
        proc := { w.proc with m_timer := false, m_done := true }
        signals := w.signals ++ [Signal.finished] }) ∨
    (¬ (w.proc.m_index = w.proc.m_path.length ∨ w.sol_expired = true) ∧
      (w.state.is_robot_box_fresh = false ∨ w.state.is_robot_box_valid = false) ∧ w1 = w) ∨
    (w.proc.m_index < w.proc.m_path.length ∧ w.sol_expired = false ∧
      w.state.is_robot_box_fresh = true ∧ w.state.is_robot_box_valid = true ∧
      w1 = { consume_box w with proc := { w.proc with m_index := w.proc.m_index + 1 } }) ∨
    (w.proc.m_index < w.proc.m_path.length ∧ w.sol_expired = false ∧
      w.state.is_robot_box_fresh = true ∧ w.state.is_robot_box_valid = true ∧
      ∃ v : vector2i, (v.x = 0 ∨ v.y = 0) ∧
        w1 = { consume_box w with moves := w.moves ++ [v] }) := by
  by_cases h1 : w.proc.m_index = w.proc.m_path.length ∨ w.sol_expired = true
  · left
    rw [movement_loop_terminal w h1] at h
    exact ⟨h1, (Option.some.inj h).symm⟩
  by_cases h2 : w.state.is_robot_box_fresh = false ∨ w.state.is_robot_box_valid = false
  · right; left
    rw [movement_loop_skip w h1 h2] at h
    exact ⟨h1, h2, (Option.some.inj h).symm⟩
  have hexp : w.sol_expired = false := by
    cases hc : w.sol_expired
    · rfl
    · exact absurd (Or.inr hc) h1
  have hf : w.state.is_robot_box_fresh = true := by
    cases hc : w.state.is_robot_box_fresh
    · exact absurd (Or.inl hc) h2
    · rfl
  have hv : w.state.is_robot_box_valid = true := by
    cases hc : w.state.is_robot_box_valid
    · exact absurd (Or.inr hc) h2
    · rfl
  right; right
  cases ht : w.proc.m_path[w.proc.m_index]? with
  | none =>
    unfold movement_loop at h
    rw [if_neg h1, if_neg h2] at h
    simp [ht] at h
  | some target =>
    have hlt : w.proc.m_index < w.proc.m_path.length := by
      rcases List.getElem?_eq_some.mp ht with ⟨hlt, _⟩
      exact hlt
    obtain ⟨target1, source, ht1, hs⟩ := reads_in_bounds w hlt
    by_cases hacc : hypot_lt (target.x - (algo.rect_center w.state.m_robot_box).x)
        (target.y - (algo.rect_center w.state.m_robot_box).y) w.proc.m_loc_accept
    · left
      rw [movement_loop_accept w target source h1 h2 ht hs hacc] at h
      exact ⟨hlt, hexp, hf, hv, (Option.some.inj h).symm⟩
    · right
      rw [movement_loop_decide w target source h1 h2 ht hs hacc] at h
      refine ⟨hlt, hexp, hf, hv, _, ?_, (Option.some.inj h).symm⟩
      split_ifs
      · exact axis_command_axis _ _ _
      · exact axis_command_axis _ _ _

theorem movement_loop_total (w : Sys) (h : w.proc.m_index ≤ w.proc.m_path.length) :
    ∃ w1, movement_loop w = some w1 := by
  by_cases h1 : w.proc.m_index = w.proc.m_path.length ∨ w.sol_expired = true
  · exact ⟨_, movement_loop_terminal w h1⟩
  by_cases h2 : w.state.is_robot_box_fresh = false ∨ w.state.is_robot_box_valid = false
  · exact ⟨_, movement_loop_skip w h1 h2⟩
  have hlt : w.proc.m_index < w.proc.m_path.length :=
    lt_of_le_of_ne h (fun hc => h1 (Or.inl hc))
  obtain ⟨target, source, ht, hs⟩ := reads_in_bounds w hlt
  by_cases hacc : hypot_lt (target.x - (algo.rect_center w.state.m_robot_box).x)
      (target.y - (algo.rect_center w.state.m_robot_box).y) w.proc.m_loc_accept
  · exact ⟨_, movement_loop_accept w target source h1 h2 ht hs hacc⟩
  · exact ⟨_, movement_loop_decide w target source h1 h2 ht hs hacc⟩

/-- What every movement step keeps. -/
theorem movement_loop_frame (w w1 : Sys) (h : movement_loop w = some w1) :
    w1.proc.m_path = w.proc.m_path ∧ w.proc.m_index ≤ w1.proc.m_index ∧
      (w.proc.m_index ≤ w.proc.m_path.length → w1.proc.m_index ≤ w.proc.m_path.length) ∧
      (w.proc.m_done = true → w1.proc.m_done = true) ∧
      w1.sol_expired = w.sol_expired := by
  rcases movement_loop_cases w w1 h with
    ⟨_, rfl⟩ | ⟨_, _, rfl⟩ | ⟨hlt, _, _, _, rfl⟩ | ⟨_, _, _, _, v, _, rfl⟩
  · exact ⟨rfl, le_refl _, fun hle => hle, fun _ => rfl, rfl⟩
  · exact ⟨rfl, le_refl _, fun hle => hle, fun hd => hd, rfl⟩
  · exact ⟨rfl, Nat.le_succ _, fun _ => hlt, fun hd => hd, rfl⟩
  · exact ⟨rfl, le_refl _, fun hle => hle, fun hd => hd, rfl⟩

theorem step_total (w : Sys) (e : Event) (h : w.proc.m_index ≤ w.proc.m_path.length) :
    ∃ w1, step w e = some w1 ∧ w1.proc.m_path = w.proc.m_path ∧
      w.proc.m_index ≤ w1.proc.m_index ∧ w1.proc.m_index ≤ w1.proc.m_path.length ∧
      (w.proc.m_done = true → w1.proc.m_done = true) := by
  cases e with
  | tick =>
    by_cases ht : w.proc.m_timer = true
    · obtain ⟨w1, hw1⟩ := movement_loop_total w h
      obtain ⟨hp, hm, hb, hd, _⟩ := movement_loop_frame w w1 hw1
      refine ⟨w1, ?_, hp, hm, ?_, hd⟩
      · simp only [step, timerEvent, ht, if_true, hw1]
      · rw [hp]; exact hb h
    · refine ⟨w, ?_, rfl, le_refl _, h, fun hd => hd⟩
      simp only [step, timerEvent, ht, if_false, Bool.false_eq_true]
  | start => exact ⟨_, rfl, rfl, le_refl _, h, fun hd => hd⟩
  | stop => exact ⟨_, rfl, rfl, le_refl _, h, fun hd => hd⟩
  | update box => exact ⟨_, rfl, rfl, le_refl _, h, fun hd => hd⟩
  | invalidate => exact ⟨_, rfl, rfl, le_refl _, h, fun hd => hd⟩
  | expire => exact ⟨_, rfl, rfl, le_refl _, h, fun hd => hd⟩

theorem run_total (evs : List Event) :
    ∀ w : Sys, w.proc.m_index ≤ w.proc.m_path.length →
      ∃ w1, run w evs = some w1 ∧ w1.proc.m_path = w.proc.m_path ∧
        w.proc.m_index ≤ w1.proc.m_index ∧ w1.proc.m_index ≤ w1.proc.m_path.length ∧
        (w.proc.m_done = true → w1.proc.m_done = true) := by
  induction evs with
  | nil => intro w h; exact ⟨w, rfl, rfl, le_refl _, h, fun hd => hd⟩
  | cons e es ih =>
    intro w h
    obtain ⟨w1, hs, hp, hm, hb, hd⟩ := step_total w e h
    obtain ⟨w2, hr, hp2, hm2, hb2, hd2⟩ := ih w1 hb
    refine ⟨w2, ?_, hp2.trans hp, le_trans hm hm2, hb2, fun h0 => hd2 (hd h0)⟩
    simp only [run, hs, Option.some_bind, hr]

theorem run_append (evs more : List Event) :
    ∀ w : Sys, run w (evs ++ more) = (run w evs).bind fun w1 => run w1 more := by
  induction evs with
  | nil => intro w; rfl
  | cons e es ih =>
    intro w
    simp only [List.cons_append, run]
    cases step w e with
    | none => rfl
    | some w1 =>
      simp only [Option.some_bind]
      exact ih w1


/-! ## Stale or invalid tracking -/

/-- C1: in every state, a tick (`movement_loop`, also when entered through
`timerEvent`) in which the robot box is not fresh or not valid returns, leaves
the segment index as it was and sends no move command to the actuator. -/
theorem stale_tick_keeps_index_and_sends_nothing (w : Sys)
    (h : w.state.is_robot_box_fresh = false ∨ w.state.is_robot_box_valid = false) :
    (∃ w1, movement_loop w = some w1 ∧ w1.proc.m_index = w.proc.m_index ∧
      w1.moves = w.moves) ∧
    (∃ w1, timerEvent w = some w1 ∧ w1.proc.m_index = w.proc.m_index ∧
      w1.moves = w.moves) := by
  have hloop : ∃ w1, movement_loop w = some w1 ∧ w1.proc.m_index = w.proc.m_index ∧
      w1.moves = w.moves := by
    by_cases h1 : w.proc.m_index = w.proc.m_path.length ∨ w.sol_expired = true
    · exact ⟨_, movement_loop_terminal w h1, rfl, rfl⟩
    · exact ⟨_, movement_loop_skip w h1 h, rfl, rfl⟩
  refine ⟨hloop, ?_⟩
  unfold timerEvent
  by_cases ht : w.proc.m_timer = true
  · rw [if_pos ht]
    exact hloop
  · rw [if_neg ht]
    exact ⟨w, rfl, rfl, rfl⟩

/-- Witness for C1: the running demo procedure with a stale (but valid) box at
`(0, 50)` stays at index 0 and sends nothing. -/
theorem stale_tick_witness :
    ((demo_sys (box_at 0 50) false true).state.is_robot_box_fresh = false ∨
      (demo_sys (box_at 0 50) false true).state.is_robot_box_valid = false) ∧
    (∃ w1, movement_loop (demo_sys (box_at 0 50) false true) = some w1 ∧
      w1.proc.m_index = 0 ∧ w1.moves = []) :=
  ⟨Or.inl rfl,
    (stale_tick_keeps_index_and_sends_nothing (demo_sys (box_at 0 50) false true)
      (Or.inl rfl)).1⟩

/-! ## The segment index -/

/-- C2: for every path, parameters and environment, after any sequence of
events on a freshly constructed procedure (start, stop and tick, interleaved
with detector updates, invalidations and the loss of the controller) every
further event runs without an out-of-bounds read, does not decrease the segment
index, and the index is at most the path length before and after it. -/
theorem index_monotone_and_bounded (state : CompetitionState) (sol_expired : Bool)
    (path : List vector2d) (loc_accept norm_dev : ℚ) (evs : List Event) (e : Event) :
    ∃ w w1, run (construct state sol_expired path loc_accept norm_dev) evs = some w ∧
      step w e = some w1 ∧ w.proc.m_index ≤ w1.proc.m_index ∧
      w.proc.m_index ≤ path.length ∧ w1.proc.m_index ≤ path.length := by
  obtain ⟨w, hr, hp, _, hb, _⟩ :=
    run_total evs (construct state sol_expired path loc_accept norm_dev) (Nat.zero_le _)
  obtain ⟨w1, hs, hp1, hm, hb1, _⟩ := step_total w e hb
  have hpath : w.proc.m_path = path := hp
  refine ⟨w, w1, hr, hs, hm, ?_, ?_⟩
  · rw [← hpath]; exact hb
  · rw [← hpath, ← hp1]; exact hb1

/-! ## Reaching a waypoint -/

/-- C3: in a tick with a live actuator and a fresh, valid box, where
`target = m_path[m_index]` exists (index below the path length) and
`hypot(target - current) < m_loc_accept` for the centre `current` of the robot
box, the index is incremented by exactly one and no move command is sent. -/
theorem accept_advances_index_without_command (w : Sys) (target : vector2d)
    (hexp : w.sol_expired = false)
    (hf : w.state.is_robot_box_fresh = true) (hv : w.state.is_robot_box_valid = true)
    (ht : w.proc.m_path[w.proc.m_index]? = some target)
    (hacc : hypot_lt (target.x - (algo.rect_center w.state.m_robot_box).x)
      (target.y - (algo.rect_center w.state.m_robot_box).y) w.proc.m_loc_accept) :
    ∃ w1, movement_loop w = some w1 ∧ w1.proc.m_index = w.proc.m_index + 1 ∧
      w1.moves = w.moves := by
  have hlt : w.proc.m_index < w.proc.m_path.length := by
    rcases List.getElem?_eq_some.mp ht with ⟨hlt, _⟩
    exact hlt
  have h1 : ¬ (w.proc.m_index = w.proc.m_path.length ∨ w.sol_expired = true) := by
    rintro (hc | hc)
    · omega
    · rw [hexp] at hc; cases hc
  have h2 : ¬ (w.state.is_robot_box_fresh = false ∨ w.state.is_robot_box_valid = false) := by
    rintro (hc | hc)
    · rw [hf] at hc; cases hc
    · rw [hv] at hc; cases hc
  obtain ⟨target1, source, ht1, hs⟩ := reads_in_bounds w hlt
  exact ⟨_, movement_loop_accept w target source h1 h2 ht hs hacc, rfl, rfl⟩

/-- Witness for C3: radius 5, path `[(100,0),(100,100)]`, initial position
`(0,0)`, current position `(98,0)`, index 0: the error is `(2, 0)`, of length
`2 < 5`, so the index becomes 1 and no command is sent. -/
theorem accept_witness :
    hypot_lt ((⟨100, 0⟩ : vector2d).x - (algo.rect_center (box_at 98 0)).x)
      ((⟨100, 0⟩ : vector2d).y - (algo.rect_center (box_at 98 0)).y) 5 ∧
    ∃ w1, movement_loop (demo_sys (box_at 98 0) true true) = some w1 ∧
      w1.proc.m_index = 1 ∧ w1.moves = [] :=
  have hacc : hypot_lt ((⟨100, 0⟩ : vector2d).x - (algo.rect_center (box_at 98 0)).x)
      ((⟨100, 0⟩ : vector2d).y - (algo.rect_center (box_at 98 0)).y) 5 := by
    simp only [hypot_lt, algo.rect_center, box_at]
    norm_num
  ⟨hacc, accept_advances_index_without_command (demo_sys (box_at 98 0) true true)
    ⟨100, 0⟩ rfl rfl rfl rfl hacc⟩


/-! ## The deviation override and the movement decision -/

theorem static_cast_int_neg (q : ℚ) : static_cast_int (-q) = -static_cast_int q := by
  unfold static_cast_int
  rw [Rat.neg_num, Rat.neg_den, Int.neg_tdiv]

theorem static_cast_int_abs_of_pos (q : ℚ) (h : 0 < q) :
    static_cast_int |q| = static_cast_int q := by
  rw [abs_of_pos h]

theorem static_cast_int_abs_of_nonpos (q : ℚ) (h : q ≤ 0) :
    -static_cast_int |q| = static_cast_int q := by
  rw [abs_of_nonpos h, static_cast_int_neg, neg_neg]

/-- When the error is `target - current`, the command of `axis_command` is the
dominant error component truncated toward zero, on its own axis. -/
theorem axis_command_of_error (target c : vector2d) :
    axis_command target c (target - c) =
      if |(target - c).x| > |(target - c).y| then ⟨static_cast_int (target - c).x, 0⟩
      else ⟨0, static_cast_int (target - c).y⟩ := by
  have hx : (target - c).x = target.x - c.x := rfl
  have hy : (target - c).y = target.y - c.y := rfl
  unfold axis_command
  by_cases hax : |(target - c).x| > |(target - c).y|
  · rw [if_pos hax, if_pos hax]
    by_cases hd : target.x > c.x
    · rw [if_pos hd, static_cast_int_abs_of_pos _ (by rw [hx]; linarith)]
    · rw [if_neg hd, static_cast_int_abs_of_nonpos _ (by rw [hx]; linarith)]
  · rw [if_neg hax, if_neg hax]
    by_cases hd : target.y > c.y
    · rw [if_pos hd, static_cast_int_abs_of_pos _ (by rw [hy]; linarith)]
    · rw [if_neg hd, static_cast_int_abs_of_nonpos _ (by rw [hy]; linarith)]

/-- The premises of a tick that reaches the movement decision, in the form the
case lemmas take them. -/
theorem decision_premises (w : Sys) (target : vector2d)
    (hexp : w.sol_expired = false)
    (hf : w.state.is_robot_box_fresh = true) (hv : w.state.is_robot_box_valid = true)
    (ht : w.proc.m_path[w.proc.m_index]? = some target) :
    ¬ (w.proc.m_index = w.proc.m_path.length ∨ w.sol_expired = true) ∧
      ¬ (w.state.is_robot_box_fresh = false ∨ w.state.is_robot_box_valid = false) := by
  have hlt : w.proc.m_index < w.proc.m_path.length := by
    rcases List.getElem?_eq_some.mp ht with ⟨hlt, _⟩
    exact hlt
  constructor
  · rintro (hc | hc)
    · omega
    · rw [hexp] at hc; cases hc
  · rintro (hc | hc)
    · rw [hf] at hc; cases hc
    · rw [hv] at hc; cases hc

/-- C4: in a tick that does not terminate, skip or accept the waypoint, with
`target = m_path[m_index]`, `source = m_path[m_index - 1]` (the initial
position when the index is 0) and `foot` the perpendicular foot of the current
position on the line through `source` and `target`: if the squared distance
from the current position to `foot` exceeds `m_norm_dev²`, the one command sent
is the movement decision for target `foot` and error `foot - current`;
otherwise it is the movement decision for `target` and `target - current`. -/
theorem deviation_override_selects_target_and_error (w : Sys)
    (target source foot : vector2d)
    (hexp : w.sol_expired = false)
    (hf : w.state.is_robot_box_fresh = true) (hv : w.state.is_robot_box_valid = true)
    (ht : w.proc.m_path[w.proc.m_index]? = some target)
    (hs : (if w.proc.m_index > 0 then w.proc.m_path[w.proc.m_index - 1]?
        else some w.proc.m_initial) = some source)
    (hacc : ¬ hypot_lt (target.x - (current w).x) (target.y - (current w).y)
      w.proc.m_loc_accept)
    (hfoot : foot = algo.perp_intersect (current w) source target) :
    ∃ w1, movement_loop w = some w1 ∧
      ((foot - current w).norm_sq > w.proc.m_norm_dev * w.proc.m_norm_dev →
        w1.moves = w.moves ++ [axis_command foot (current w) (foot - current w)]) ∧
      (¬ (foot - current w).norm_sq > w.proc.m_norm_dev * w.proc.m_norm_dev →
        w1.moves = w.moves ++ [axis_command target (current w) (target - current w)]) := by
  obtain ⟨h1, h2⟩ := decision_premises w target hexp hf hv ht
  refine ⟨_, movement_loop_decide w target source h1 h2 ht hs hacc, ?_, ?_⟩
  · intro hov
    subst hfoot
    simp only [current] at hov
    simp only [current, if_pos hov]
  · intro hov
    subst hfoot
    simp only [current] at hov
    simp only [current, if_neg hov]

/-- Witness for C4: path `[(100,0),(100,100)]`, initial position `(0,0)`,
index 0, current position `(0,50)`, threshold 20: the foot is `(0,0)`, the
squared deviation 2500 exceeds 400, and the one command sent is `(0, -50)`:
vertical, negative Y, zero X. -/
theorem deviation_override_witness :
    algo.perp_intersect (current (demo_sys (box_at 0 50) true true)) ⟨0, 0⟩ ⟨100, 0⟩
      = ⟨0, 0⟩ ∧
    ((⟨0, 0⟩ : vector2d) - current (demo_sys (box_at 0 50) true true)).norm_sq = 2500 ∧
    ∃ w1, movement_loop (demo_sys (box_at 0 50) true true) = some w1 ∧
      w1.moves = [⟨0, -50⟩] := by
  have hc : current (demo_sys (box_at 0 50) true true) = ⟨0, 50⟩ := by
    simp only [current, demo_sys, algo.rect_center, box_at]
    norm_num
  have hfoot : algo.perp_intersect (current (demo_sys (box_at 0 50) true true))
      ⟨0, 0⟩ ⟨100, 0⟩ = ⟨0, 0⟩ := by
    rw [hc]
    simp only [algo.perp_intersect]
    norm_num
  have hsub : (⟨0, 0⟩ : vector2d) - ⟨0, 50⟩ = ⟨0, -50⟩ := by
    show vector2d.sub _ _ = _
    simp only [vector2d.sub]
    norm_num
  have hacc : ¬ hypot_lt ((⟨100, 0⟩ : vector2d).x -
      (current (demo_sys (box_at 0 50) true true)).x)
      ((⟨100, 0⟩ : vector2d).y - (current (demo_sys (box_at 0 50) true true)).y)
      (demo_sys (box_at 0 50) true true).proc.m_loc_accept := by
    rw [hc]
    simp only [hypot_lt, demo_sys]
    norm_num
  obtain ⟨w1, hw1, hov, _⟩ := deviation_override_selects_target_and_error
    (demo_sys (box_at 0 50) true true) ⟨100, 0⟩ ⟨0, 0⟩ ⟨0, 0⟩ rfl rfl rfl rfl rfl hacc
    hfoot.symm
  rw [hc, hsub] at hov
  refine ⟨hfoot, ?_, w1, hw1, ?_⟩
  · rw [hc, hsub]
    simp only [vector2d.norm_sq]
    norm_num
  · have hm := hov (by simp only [vector2d.norm_sq, demo_sys]; norm_num)
    rw [hm]
    simp only [axis_command, demo_sys, static_cast_int]
    norm_num


/-- C5, as the code has it: in a tick that reaches the movement decision with
the (possibly overridden) error `err`, exactly one command is sent: if
`|err.x| > |err.y|` it is `(trunc err.x, 0)`, otherwise `(0, trunc err.y)`,
where `trunc` is `static_cast<int>`, truncation toward zero.  The magnitude is
the dominant error magnitude truncated to an integer and the sign is that of
the error component (the component is 0 when the magnitude is below 1). -/
theorem command_is_truncated_dominant_error (w : Sys)
    (target source foot err : vector2d)
    (hexp : w.sol_expired = false)
    (hf : w.state.is_robot_box_fresh = true) (hv : w.state.is_robot_box_valid = true)
    (ht : w.proc.m_path[w.proc.m_index]? = some target)
    (hs : (if w.proc.m_index > 0 then w.proc.m_path[w.proc.m_index - 1]?
        else some w.proc.m_initial) = some source)
    (hacc : ¬ hypot_lt (target.x - (current w).x) (target.y - (current w).y)
      w.proc.m_loc_accept)
    (hfoot : foot = algo.perp_intersect (current w) source target)
    (herr : err = if (foot - current w).norm_sq > w.proc.m_norm_dev * w.proc.m_norm_dev
      then foot - current w else target - current w) :
    ∃ w1, movement_loop w = some w1 ∧
      w1.moves = w.moves ++
        [if |err.x| > |err.y| then ⟨static_cast_int err.x, 0⟩
          else ⟨0, static_cast_int err.y⟩] := by
  obtain ⟨h1, h2⟩ := decision_premises w target hexp hf hv ht
  refine ⟨_, movement_loop_decide w target source h1 h2 ht hs hacc, ?_⟩
  subst hfoot
  simp only [current] at herr
  by_cases hov : (algo.perp_intersect (algo.rect_center w.state.m_robot_box) source target
      - algo.rect_center w.state.m_robot_box).norm_sq > w.proc.m_norm_dev * w.proc.m_norm_dev
  · rw [if_pos hov] at herr
    subst herr
    simp only [if_pos hov, axis_command_of_error]
  · rw [if_neg hov] at herr
    subst herr
    simp only [if_neg hov, axis_command_of_error]

/-- Witness for C5: on the demo path at `(21/2, 3)` the error is
`(179/2, -3)`, there is no override, and the command is `(89, 0)`. -/
theorem truncated_command_witness :
    ∃ w1, movement_loop (demo_sys (box_at (21 / 2) 3) true true) = some w1 ∧
      w1.moves = [⟨89, 0⟩] := by
  have hc : current (demo_sys (box_at (21 / 2) 3) true true) = ⟨21 / 2, 3⟩ := by
    simp only [current, demo_sys, algo.rect_center, box_at]
    norm_num
  have hfoot : algo.perp_intersect (current (demo_sys (box_at (21 / 2) 3) true true))
      ⟨0, 0⟩ ⟨100, 0⟩ = ⟨21 / 2, 0⟩ := by
    rw [hc]
    simp only [algo.perp_intersect]
    norm_num
  have hsub : (⟨21 / 2, 0⟩ : vector2d) - ⟨21 / 2, 3⟩ = ⟨0, -3⟩ := by
    show vector2d.sub _ _ = _
    simp only [vector2d.sub]
    norm_num
  have hsub2 : (⟨100, 0⟩ : vector2d) - ⟨21 / 2, 3⟩ = ⟨179 / 2, -3⟩ := by
    show vector2d.sub _ _ = _
    simp only [vector2d.sub]
    norm_num
  have hacc : ¬ hypot_lt ((⟨100, 0⟩ : vector2d).x -
      (current (demo_sys (box_at (21 / 2) 3) true true)).x)
      ((⟨100, 0⟩ : vector2d).y - (current (demo_sys (box_at (21 / 2) 3) true true)).y)
      (demo_sys (box_at (21 / 2) 3) true true).proc.m_loc_accept := by
    rw [hc]
    simp only [hypot_lt, demo_sys]
    norm_num
  have herr : (⟨179 / 2, -3⟩ : vector2d) =
      if ((⟨21 / 2, 0⟩ : vector2d) - current (demo_sys (box_at (21 / 2) 3) true true)).norm_sq
          > (demo_sys (box_at (21 / 2) 3) true true).proc.m_norm_dev
            * (demo_sys (box_at (21 / 2) 3) true true).proc.m_norm_dev
      then (⟨21 / 2, 0⟩ : vector2d) - current (demo_sys (box_at (21 / 2) 3) true true)
      else (⟨100, 0⟩ : vector2d) - current (demo_sys (box_at (21 / 2) 3) true true) := by
    rw [hc, hsub, hsub2, if_neg]
    simp only [vector2d.norm_sq, demo_sys]
    norm_num
  obtain ⟨w1, hw1, hm⟩ := command_is_truncated_dominant_error
    (demo_sys (box_at (21 / 2) 3) true true) ⟨100, 0⟩ ⟨0, 0⟩ ⟨21 / 2, 0⟩ ⟨179 / 2, -3⟩
    rfl rfl rfl rfl rfl hacc hfoot.symm herr
  refine ⟨w1, hw1, ?_⟩
  rw [hm]
  have h1 : static_cast_int (179 / 2) = 89 := by
    simp only [static_cast_int]
    norm_num
    rfl
  have h2 : |(179 / 2 : ℚ)| > |(-3 : ℚ)| := by
    rw [abs_of_pos (by norm_num : (0 : ℚ) < 179 / 2),
      abs_of_neg (by norm_num : (-3 : ℚ) < 0)]
    norm_num
  simp only [if_pos h2, h1, demo_sys, List.nil_append]

/-- Counterexample to C5 as stated: half a unit left of the waypoint
`(1/2, 0)` with acceptance radius 1/4, the tick reaches the movement decision
with no override and error `(1/2, 0)`, so `|err_x| > |err_y|` and `err_x > 0`;
the command sent is `(0, 0)`: its X magnitude is not `|err_x| = 1/2` and its X
component is not positive. -/
theorem magnitude_is_not_exact_counterexample :
    half_sys.proc.m_path[half_sys.proc.m_index]? = some ⟨1 / 2, 0⟩ ∧
    ¬ hypot_lt ((⟨1 / 2, 0⟩ : vector2d) - current half_sys).x
      ((⟨1 / 2, 0⟩ : vector2d) - current half_sys).y half_sys.proc.m_loc_accept ∧
    ¬ ((algo.perp_intersect (current half_sys) half_sys.proc.m_initial ⟨1 / 2, 0⟩
        - current half_sys).norm_sq > half_sys.proc.m_norm_dev * half_sys.proc.m_norm_dev) ∧
    (⟨1 / 2, 0⟩ : vector2d) - current half_sys = ⟨1 / 2, 0⟩ ∧
    |(1 / 2 : ℚ)| > |(0 : ℚ)| ∧
    ∃ w1 v, movement_loop half_sys = some w1 ∧ w1.moves = [v] ∧
      ((|v.x| : Int) : ℚ) ≠ |(1 / 2 : ℚ)| ∧ ¬ 0 < v.x := by
  have hc : current half_sys = ⟨0, 0⟩ := by
    simp only [current, half_sys, algo.rect_center, box_at]
    norm_num
  have hsub : (⟨1 / 2, 0⟩ : vector2d) - ⟨0, 0⟩ = ⟨1 / 2, 0⟩ := by
    show vector2d.sub _ _ = _
    simp only [vector2d.sub]
    norm_num
  have hfoot : algo.perp_intersect (⟨0, 0⟩ : vector2d) half_sys.proc.m_initial ⟨1 / 2, 0⟩
      = ⟨0, 0⟩ := by
    simp only [algo.perp_intersect, half_sys]
    norm_num
  have hzero : (⟨0, 0⟩ : vector2d) - ⟨0, 0⟩ = ⟨0, 0⟩ := by
    show vector2d.sub _ _ = _
    simp only [vector2d.sub]
    norm_num
  have hacc : ¬ hypot_lt ((⟨1 / 2, 0⟩ : vector2d).x - (algo.rect_center
      half_sys.state.m_robot_box).x) ((⟨1 / 2, 0⟩ : vector2d).y - (algo.rect_center
      half_sys.state.m_robot_box).y) half_sys.proc.m_loc_accept := by
    have hc1 : algo.rect_center half_sys.state.m_robot_box = ⟨0, 0⟩ := hc
    rw [hc1]
    simp only [hypot_lt, half_sys]
    norm_num
  have hov : ¬ ((algo.perp_intersect (current half_sys) half_sys.proc.m_initial ⟨1 / 2, 0⟩
        - current half_sys).norm_sq > half_sys.proc.m_norm_dev * half_sys.proc.m_norm_dev) := by
    rw [hc, hfoot, hzero]
    simp only [vector2d.norm_sq, half_sys]
    norm_num
  have h1 : ¬ (half_sys.proc.m_index = half_sys.proc.m_path.length ∨
      half_sys.sol_expired = true) := by
    simp [half_sys]
  have h2 : ¬ (half_sys.state.is_robot_box_fresh = false ∨
      half_sys.state.is_robot_box_valid = false) := by
    simp [half_sys, CompetitionState.is_robot_box_fresh,
      CompetitionState.is_robot_box_valid]
  have hloop := movement_loop_decide half_sys ⟨1 / 2, 0⟩ half_sys.proc.m_initial h1 h2
    rfl rfl hacc
  have hov1 : ¬ ((algo.perp_intersect (algo.rect_center half_sys.state.m_robot_box)
      half_sys.proc.m_initial ⟨1 / 2, 0⟩
        - algo.rect_center half_sys.state.m_robot_box).norm_sq
        > half_sys.proc.m_norm_dev * half_sys.proc.m_norm_dev) := hov
  rw [if_neg hov1] at hloop
  have hc1 : algo.rect_center half_sys.state.m_robot_box = ⟨0, 0⟩ := hc
  have hcmd : axis_command ⟨1 / 2, 0⟩ (⟨0, 0⟩ : vector2d) ⟨1 / 2, 0⟩ = ⟨0, 0⟩ := by
    have h3 : static_cast_int (1 / 2) = 0 := by
      simp only [static_cast_int]
      norm_num
      rfl
    have h4 : |(1 / 2 : ℚ)| > |(0 : ℚ)| := by norm_num
    have h5 : |(1 / 2 : ℚ)| = 1 / 2 := by norm_num
    simp only [axis_command, if_pos h4, h5, h3]
    norm_num
  rw [hc1, hsub, hcmd] at hloop
  refine ⟨rfl, ?_, hov, ?_, by norm_num, _, ⟨0, 0⟩, hloop, ?_, ?_, ?_⟩
  · rw [hc, hsub]
    simp only [hypot_lt, half_sys]
    norm_num
  · rw [hc, hsub]
  · simp [half_sys]
  · rw [abs_of_pos (by norm_num : (0 : ℚ) < 1 / 2)]
    norm_num
  · norm_num


/-! ## One axis command for each tick -/

/-- C6: in every state a tick (`movement_loop`, also through `timerEvent`)
that returns has sent at most one move command, and a command sent has at
least one component equal to 0; a tick returns whenever the index is at most
the path length; `start()` and `stop()` send no move command. -/
theorem at_most_one_axis_command_each_tick (w : Sys) :
    (∀ w1, movement_loop w = some w1 →
      ∃ l, w1.moves = w.moves ++ l ∧ l.length ≤ 1 ∧ ∀ v ∈ l, v.x = 0 ∨ v.y = 0) ∧
    (∀ w1, timerEvent w = some w1 →
      ∃ l, w1.moves = w.moves ++ l ∧ l.length ≤ 1 ∧ ∀ v ∈ l, v.x = 0 ∨ v.y = 0) ∧
    (w.proc.m_index ≤ w.proc.m_path.length →
      (∃ w1, movement_loop w = some w1) ∧ ∃ w1, timerEvent w = some w1) ∧
    (start w).moves = w.moves ∧ (stop w).moves = w.moves := by
  have hloop : ∀ w1, movement_loop w = some w1 →
      ∃ l, w1.moves = w.moves ++ l ∧ l.length ≤ 1 ∧ ∀ v ∈ l, v.x = 0 ∨ v.y = 0 := by
    intro w1 h
    rcases movement_loop_cases w w1 h with
      ⟨_, rfl⟩ | ⟨_, _, rfl⟩ | ⟨_, _, _, _, rfl⟩ | ⟨_, _, _, _, v, hv, rfl⟩
    · exact ⟨[], (List.append_nil _).symm, Nat.zero_le _, fun v hv => by cases hv⟩
    · exact ⟨[], (List.append_nil _).symm, Nat.zero_le _, fun v hv => by cases hv⟩
    · exact ⟨[], (List.append_nil _).symm, Nat.zero_le _, fun v hv => by cases hv⟩
    · refine ⟨[v], rfl, le_refl _, fun u hu => ?_⟩
      rw [List.mem_singleton] at hu
      rw [hu]
      exact hv
  refine ⟨hloop, ?_, ?_, rfl, rfl⟩
  · intro w1 h
    unfold timerEvent at h
    by_cases ht : w.proc.m_timer = true
    · rw [if_pos ht] at h
      exact hloop w1 h
    · rw [if_neg ht] at h
      cases h
      exact ⟨[], (List.append_nil _).symm, Nat.zero_le _, fun v hv => by cases hv⟩
  · intro hle
    refine ⟨movement_loop_total w hle, ?_⟩
    unfold timerEvent
    by_cases ht : w.proc.m_timer = true
    · rw [if_pos ht]
      exact movement_loop_total w hle
    · rw [if_neg ht]
      exact ⟨w, rfl⟩

/-- Witness for C6: the tick of the demo procedure at `(0, 50)` returns, and
what it returns has one more command, with a zero component. -/
theorem one_axis_command_witness :
    ∃ w1, movement_loop (demo_sys (box_at 0 50) true true) = some w1 ∧
      ∃ l, w1.moves = [] ++ l ∧ l.length ≤ 1 ∧ ∀ v ∈ l, v.x = 0 ∨ v.y = 0 :=
  have h := at_most_one_axis_command_each_tick (demo_sys (box_at 0 50) true true)
  have hle : (demo_sys (box_at 0 50) true true).proc.m_index ≤
      (demo_sys (box_at 0 50) true true).proc.m_path.length := Nat.zero_le _
  (h.2.2.1 hle).1.elim fun w1 hw1 => ⟨w1, hw1, h.1 w1 hw1⟩

/-! ## The terminal tick -/

theorem run_outside (pre : List Event) :
    ∀ w : Sys, (∀ e ∈ pre, e.outside = true) →
      ∃ w1, run w pre = some w1 ∧ w1.proc = w.proc ∧ w1.moves = w.moves ∧
        w1.signals = w.signals := by
  induction pre with
  | nil => intro w _; exact ⟨w, rfl, rfl, rfl, rfl⟩
  | cons e es ih =>
    intro w h
    have he := h e (List.mem_cons_self _ _)
    have hes : ∀ e1 ∈ es, e1.outside = true := fun e1 h1 => h e1 (List.mem_cons_of_mem _ h1)
    cases e with
    | start => cases he
    | stop => cases he
    | tick => cases he
    | update box =>
      obtain ⟨w1, hr, hp, hm, hsig⟩ := ih { w with state := w.state.update box } hes
      exact ⟨w1, by simp only [run, step, Option.some_bind, hr], hp, hm, hsig⟩
    | invalidate =>
      obtain ⟨w1, hr, hp, hm, hsig⟩ := ih { w with state := w.state.invalidate } hes
      exact ⟨w1, by simp only [run, step, Option.some_bind, hr], hp, hm, hsig⟩
    | expire =>
      obtain ⟨w1, hr, hp, hm, hsig⟩ := ih { w with sol_expired := true } hes
      exact ⟨w1, by simp only [run, step, Option.some_bind, hr], hp, hm, hsig⟩

/-- With the timer inactive and no further `start()`, nothing is sent and
`finished` is not emitted. -/
theorem run_inactive (post : List Event) :
    ∀ w : Sys, w.proc.m_timer = false → Event.start ∉ post →
      ∃ w1, run w post = some w1 ∧ w1.moves = w.moves ∧
        w1.signals.count Signal.finished = w.signals.count Signal.finished ∧
        w1.proc.m_timer = false ∧ w1.proc.m_done = w.proc.m_done ∧
        w1.proc.m_index = w.proc.m_index := by
  induction post with
  | nil => intro w ht _; exact ⟨w, rfl, rfl, rfl, ht, rfl, rfl⟩
  | cons e es ih =>
    intro w ht hns
    have hes : Event.start ∉ es := fun hc => hns (List.mem_cons_of_mem _ hc)
    cases e with
    | start => exact absurd (List.mem_cons_self _ _) hns
    | stop =>
      obtain ⟨w1, hr, hm, hc, ht1, hd, hi⟩ := ih (stop w) rfl hes
      refine ⟨w1, by simp only [run, step, Option.some_bind, hr], hm, ?_, ht1, hd, hi⟩
      rw [hc]
      simp [stop]
    | tick =>
      obtain ⟨w1, hr, hm, hc, ht1, hd, hi⟩ := ih w ht hes
      refine ⟨w1, ?_, hm, hc, ht1, hd, hi⟩
      simp only [run, step, timerEvent, ht, Bool.false_eq_true, if_false, Option.some_bind, hr]
    | update box =>
      obtain ⟨w1, hr, hm, hc, ht1, hd, hi⟩ := ih { w with state := w.state.update box } ht hes
      exact ⟨w1, by simp only [run, step, Option.some_bind, hr], hm, hc, ht1, hd, hi⟩
    | invalidate =>
      obtain ⟨w1, hr, hm, hc, ht1, hd, hi⟩ := ih { w with state := w.state.invalidate } ht hes
      exact ⟨w1, by simp only [run, step, Option.some_bind, hr], hm, hc, ht1, hd, hi⟩
    | expire =>
      obtain ⟨w1, hr, hm, hc, ht1, hd, hi⟩ := ih { w with sol_expired := true } ht hes
      exact ⟨w1, by simp only [run, step, Option.some_bind, hr], hm, hc, ht1, hd, hi⟩

/-- C7: a tick in which the index equals the path length or the actuator
reference has expired returns with the timer stopped and `done` set, has
emitted `finished` exactly once, has sent no move command and has left the
index unchanged, whatever the freshness and validity of the box.  For an empty
path: after `start()`, any detector or controller events, the first tick, and
then any events without a further `start()`, no command was ever sent, the
procedure is done with the timer inactive, and `finished` was emitted exactly
once in the whole run. -/
theorem terminal_tick_finishes_once :
    (∀ w : Sys, w.proc.m_index = w.proc.m_path.length ∨ w.sol_expired = true →
      ∃ w1, movement_loop w = some w1 ∧ w1.proc.m_timer = false ∧
        w1.proc.m_done = true ∧ w1.signals = w.signals ++ [Signal.finished] ∧
        w1.moves = w.moves ∧ w1.proc.m_index = w.proc.m_index) ∧
    (∀ (state : CompetitionState) (sol_expired : Bool) (loc_accept norm_dev : ℚ)
      (pre post : List Event),
      (∀ e ∈ pre, e.outside = true) → Event.start ∉ post →
      ∃ w1, run (construct state sol_expired [] loc_accept norm_dev)
          (Event.start :: pre ++ Event.tick :: post) = some w1 ∧
        w1.moves = [] ∧ w1.signals.count Signal.finished = 1 ∧
        w1.proc.m_done = true ∧ w1.proc.m_timer = false) := by
  constructor
  · intro w h
    exact ⟨_, movement_loop_terminal w h, rfl, rfl, rfl, rfl, rfl⟩
  · intro state sol_expired loc_accept norm_dev pre post hpre hpost
    obtain ⟨w1, hr1, hp1, hm1, hs1⟩ :=
      run_outside pre (start (construct state sol_expired [] loc_accept norm_dev)) hpre
    have hterm : w1.proc.m_index = w1.proc.m_path.length ∨ w1.sol_expired = true := by
      left
      rw [hp1]
      rfl
    have htimer : w1.proc.m_timer = true := by
      rw [hp1]
      rfl
    obtain ⟨w2, hr2, hm2, hc2, ht2, hd2, _⟩ := run_inactive post
      { w1 with
        proc := { w1.proc with m_timer := false, m_done := true }
        signals := w1.signals ++ [Signal.finished] } rfl hpost
    refine ⟨w2, ?_, ?_, ?_, ?_, ht2⟩
    · rw [List.cons_append, run]
      simp only [step, Option.some_bind]
      rw [run_append, hr1]
      simp only [Option.some_bind, run, step, timerEvent, htimer, if_true,
        movement_loop_terminal w1 hterm, hr2]
    · rw [hm2]
      exact hm1
    · rw [hc2]
      show (w1.signals ++ [Signal.finished]).count Signal.finished = 1
      rw [hs1]
      simp [start, construct]
    · rw [hd2]

/-- Witness for C7: the terminal tick of a procedure whose controller has
expired, and a run on the empty path in which the box is updated before the
first tick and the timer fires twice more afterwards. -/
theorem terminal_tick_witness :
    (∃ w1, movement_loop { demo_sys (box_at 0 50) true true with sol_expired := true }
        = some w1 ∧ w1.proc.m_timer = false ∧ w1.proc.m_done = true ∧
      w1.signals = [Signal.finished] ∧ w1.moves = [] ∧ w1.proc.m_index = 0) ∧
    (∃ w1, run (construct ⟨box_at 0 0, false, false⟩ false [] 5 20)
        (Event.start :: [Event.update (box_at 1 1)] ++
          Event.tick :: [Event.tick, Event.stop, Event.tick]) = some w1 ∧
      w1.moves = [] ∧ w1.signals.count Signal.finished = 1 ∧
      w1.proc.m_done = true ∧ w1.proc.m_timer = false) :=
  ⟨terminal_tick_finishes_once.1 { demo_sys (box_at 0 50) true true with sol_expired := true }
      (Or.inr rfl),
    terminal_tick_finishes_once.2 ⟨box_at 0 0, false, false⟩ false 5 20
      [Event.update (box_at 1 1)] [Event.tick, Event.stop, Event.tick]
      (by decide) (by decide)⟩


/-! ## Reaching the end of the path -/

/-- A run of fresh ticks, each within the acceptance radius of its waypoint,
advances the index by one for each tick and sends nothing. -/
theorem run_fresh_ticks (r : ℚ) (rest : List vector2d) (boxes : List rect2d)
    (h : List.Forall₂ (near r) rest boxes) :
    ∀ (w : Sys) (pre suffix : List vector2d), w.proc.m_path = pre ++ rest ++ suffix →
      w.proc.m_index = pre.length → w.proc.m_timer = true → w.sol_expired = false →
      w.proc.m_loc_accept = r →
      ∃ w1, run w (fresh_ticks boxes) = some w1 ∧
        w1.proc.m_index = pre.length + rest.length ∧ w1.proc.m_path = w.proc.m_path ∧
        w1.proc.m_timer = true ∧ w1.proc.m_done = w.proc.m_done ∧ w1.moves = w.moves ∧
        w1.sol_expired = false ∧ w1.signals = w.signals := by
  induction h with
  | nil =>
    intro w pre suffix _ hidx ht hexp _
    exact ⟨w, rfl, by simpa using hidx, rfl, ht, rfl, rfl, hexp, rfl⟩
  | @cons p b rest1 boxes1 hpb _ ih =>
    intro w pre suffix hpath hidx ht hexp hr
    have hget : w.proc.m_path[w.proc.m_index]? = some p := by
      rw [hpath, hidx, List.append_assoc, List.getElem?_append_right (le_refl _),
        Nat.sub_self]
      simp
    have hlt : w.proc.m_index < w.proc.m_path.length := by
      rcases List.getElem?_eq_some.mp hget with ⟨hlt, _⟩
      exact hlt
    let wu : Sys := { w with state := w.state.update b }
    have h1 : ¬ (wu.proc.m_index = wu.proc.m_path.length ∨ wu.sol_expired = true) := by
      rintro (hc | hc)
      · exact absurd hc (Nat.ne_of_lt hlt)
      · rw [show wu.sol_expired = w.sol_expired from rfl, hexp] at hc
        cases hc
    have h2 : ¬ (wu.state.is_robot_box_fresh = false ∨
        wu.state.is_robot_box_valid = false) := by
      rintro (hc | hc) <;> cases hc
    obtain ⟨target1, source, _, hs⟩ := reads_in_bounds wu hlt
    have hacc : hypot_lt (p.x - (algo.rect_center wu.state.m_robot_box).x)
        (p.y - (algo.rect_center wu.state.m_robot_box).y) wu.proc.m_loc_accept := by
      rw [show wu.proc.m_loc_accept = r from hr]
      exact hpb
    have hloop := movement_loop_accept wu p source h1 h2 hget hs hacc
    obtain ⟨w1, hrun, hi1, hp1, ht1, hd1, hm1, he1, hs1⟩ :=
      ih { consume_box wu with proc := { wu.proc with m_index := wu.proc.m_index + 1 } }
        (pre ++ [p]) suffix (by simp [wu, hpath]) (by simp [wu, hidx]) ht hexp hr
    refine ⟨w1, ?_, ?_, hp1, ht1, hd1, hm1, he1, hs1⟩
    · simp only [fresh_ticks, run, step, Option.some_bind]
      have htick : timerEvent wu = movement_loop wu := by
        unfold timerEvent
        rw [if_pos (show wu.proc.m_timer = true from ht)]
      rw [htick, hloop]
      exact hrun
    · rw [hi1]
      simp
      omega

/-- C8: for a path of length `n`, a live actuator and boxes `b₀ … bₙ₋₁` with
the centre of `bᵢ` within the acceptance radius of `path[i]`: after `start()`
and `k ≤ n` ticks, each preceded by the detector update with the next box, the
index is `k`, the procedure is not done, the timer is active and nothing was
sent; after `n` such ticks the index is `n`, and tick `n + 1` sets `done`,
stops the timer and emits `finished`. -/
theorem finished_after_n_plus_one_ticks (state : CompetitionState)
    (path : List vector2d) (loc_accept norm_dev : ℚ) (boxes : List rect2d)
    (h : List.Forall₂ (near loc_accept) path boxes) :
    (∀ k, k ≤ path.length →
      ∃ w, run (construct state false path loc_accept norm_dev)
          (Event.start :: fresh_ticks (boxes.take k)) = some w ∧
        w.proc.m_index = k ∧ w.proc.m_done = false ∧ w.proc.m_timer = true ∧
        w.moves = []) ∧
    ∃ w w1, run (construct state false path loc_accept norm_dev)
        (Event.start :: fresh_ticks boxes) = some w ∧
      w.proc.m_index = path.length ∧ w.proc.m_done = false ∧
      step w Event.tick = some w1 ∧ w1.proc.m_done = true ∧ w1.proc.m_timer = false ∧
      w1.signals.count Signal.finished = 1 ∧ w1.moves = [] := by
  constructor
  · intro k hk
    obtain ⟨w, hr, hi, _, ht, hd, hm, _, _⟩ :=
      run_fresh_ticks loc_accept (path.take k) (boxes.take k) (List.forall₂_take k h)
        (start (construct state false path loc_accept norm_dev)) [] (path.drop k)
        (by simp [start, construct]) rfl rfl rfl rfl
    refine ⟨w, ?_, ?_, ?_, ht, ?_⟩
    · simp only [run, step, Option.some_bind]
      exact hr
    · rw [hi]
      simp [hk]
    · rw [hd]
      rfl
    · rw [hm]
      rfl
  · obtain ⟨w, hr, hi, hp, ht, hd, hm, he, hs⟩ :=
      run_fresh_ticks loc_accept path boxes h
        (start (construct state false path loc_accept norm_dev)) [] []
        (by simp [start, construct]) rfl rfl rfl rfl
    have hidx : w.proc.m_index = path.length := by
      rw [hi]
      simp
    have hterm : w.proc.m_index = w.proc.m_path.length ∨ w.sol_expired = true := by
      left
      rw [hidx, hp]
      rfl
    refine ⟨w, { w with
        proc := { w.proc with m_timer := false, m_done := true }
        signals := w.signals ++ [Signal.finished] }, ?_, hidx, ?_, ?_, rfl, rfl, ?_, ?_⟩
    · simp only [run, step, Option.some_bind]
      exact hr
    · rw [hd]
      rfl
    · simp only [step, timerEvent, ht, if_true]
      exact movement_loop_terminal w hterm
    · show (w.signals ++ [Signal.finished]).count Signal.finished = 1
      rw [hs]
      simp [start, construct]
    · show w.moves = []
      rw [hm]
      rfl

/-- Witness for C8: the demo path with boxes centred at `(98, 0)` and
`(100, 97)` and radius 5: index 2 after two ticks, done at the third. -/
theorem finished_after_three_ticks_witness :
    List.Forall₂ (near 5) demo_path [box_at 98 0, box_at 100 97] ∧
    ∃ w w1, run (construct ⟨box_at 0 0, false, false⟩ false demo_path 5 20)
        (Event.start :: fresh_ticks [box_at 98 0, box_at 100 97]) = some w ∧
      w.proc.m_index = demo_path.length ∧ w.proc.m_done = false ∧
      step w Event.tick = some w1 ∧ w1.proc.m_done = true ∧ w1.proc.m_timer = false ∧
      w1.signals.count Signal.finished = 1 ∧ w1.moves = [] :=
  have hnear : List.Forall₂ (near 5) demo_path [box_at 98 0, box_at 100 97] := by
    refine List.Forall₂.cons ?_ (List.Forall₂.cons ?_ List.Forall₂.nil)
    · simp only [near, hypot_lt, algo.rect_center, box_at]
      norm_num
    · simp only [near, hypot_lt, algo.rect_center, box_at]
      norm_num
  ⟨hnear, (finished_after_n_plus_one_ticks ⟨box_at 0 0, false, false⟩ demo_path 5 20
    [box_at 98 0, box_at 100 97] hnear).2⟩


/-! ## Freshness -/

theorem movement_loop_stale (w : Sys) (h : w.state.is_robot_box_fresh = false) :
    ∃ w1, movement_loop w = some w1 ∧ w1.moves = w.moves ∧
      w1.proc.m_index = w.proc.m_index := by
  by_cases h1 : w.proc.m_index = w.proc.m_path.length ∨ w.sol_expired = true
  · exact ⟨_, movement_loop_terminal w h1, rfl, rfl⟩
  · exact ⟨_, movement_loop_skip w h1 (Or.inl h), rfl, rfl⟩

/-- Without a detector update and without a tick, a stale box stays stale. -/
theorem run_keeps_stale (evs : List Event) :
    ∀ w : Sys, w.state.is_robot_box_fresh = false →
      (∀ e ∈ evs, e ≠ Event.tick ∧ ∀ box, e ≠ Event.update box) →
      ∃ w1, run w evs = some w1 ∧ w1.state.is_robot_box_fresh = false := by
  induction evs with
  | nil => intro w h _; exact ⟨w, rfl, h⟩
  | cons e es ih =>
    intro w h hev
    have he := hev e (List.mem_cons_self _ _)
    have hes : ∀ e1 ∈ es, e1 ≠ Event.tick ∧ ∀ box, e1 ≠ Event.update box :=
      fun e1 h1 => hev e1 (List.mem_cons_of_mem _ h1)
    cases e with
    | tick => exact absurd rfl he.1
    | update box => exact absurd rfl (he.2 box)
    | start =>
      obtain ⟨w1, hr, hf⟩ := ih (start w) h hes
      exact ⟨w1, by simp only [run, step, Option.some_bind, hr], hf⟩
    | stop =>
      obtain ⟨w1, hr, hf⟩ := ih (stop w) h hes
      exact ⟨w1, by simp only [run, step, Option.some_bind, hr], hf⟩
    | invalidate =>
      obtain ⟨w1, hr, hf⟩ := ih { w with state := w.state.invalidate } h hes
      exact ⟨w1, by simp only [run, step, Option.some_bind, hr], hf⟩
    | expire =>
      obtain ⟨w1, hr, hf⟩ := ih { w with sol_expired := true } h hes
      exact ⟨w1, by simp only [run, step, Option.some_bind, hr], hf⟩

/-- C9: freshness is one-shot.  A tick that passes the terminal check and the
fresh-and-valid check leaves the box stale; after it, and after any events
that are neither a detector update nor a tick, the next tick returns, sends no
move command and leaves the index as it was.  A tick that terminates or skips
leaves the tracking state (freshness included) untouched. -/
theorem freshness_is_one_shot :
    (∀ w w1 : Sys,
      ¬ (w.proc.m_index = w.proc.m_path.length ∨ w.sol_expired = true) →
      w.state.is_robot_box_fresh = true → w.state.is_robot_box_valid = true →
      movement_loop w = some w1 →
      w1.state.is_robot_box_fresh = false ∧
      ∀ evs : List Event, (∀ e ∈ evs, e ≠ Event.tick ∧ ∀ box, e ≠ Event.update box) →
        ∃ w2 w3, run w1 evs = some w2 ∧ movement_loop w2 = some w3 ∧
          w3.moves = w2.moves ∧ w3.proc.m_index = w2.proc.m_index) ∧
    (∀ w : Sys,
      (w.proc.m_index = w.proc.m_path.length ∨ w.sol_expired = true) ∨
        (w.state.is_robot_box_fresh = false ∨ w.state.is_robot_box_valid = false) →
      ∃ w1, movement_loop w = some w1 ∧ w1.state = w.state) := by
  constructor
  · intro w w1 h1 hf hv h
    have hstale : w1.state.is_robot_box_fresh = false := by
      rcases movement_loop_cases w w1 h with
        ⟨hc, _⟩ | ⟨_, hc, _⟩ | ⟨_, _, _, _, rfl⟩ | ⟨_, _, _, _, v, _, rfl⟩
      · exact absurd hc h1
      · rcases hc with hc | hc
        · rw [hf] at hc; cases hc
        · rw [hv] at hc; cases hc
      · rfl
      · rfl
    refine ⟨hstale, fun evs hev => ?_⟩
    obtain ⟨w2, hr, hf2⟩ := run_keeps_stale evs w1 hstale hev
    obtain ⟨w3, hl, hm, hi⟩ := movement_loop_stale w2 hf2
    exact ⟨w2, w3, hr, hl, hm, hi⟩
  · intro w h
    by_cases h1 : w.proc.m_index = w.proc.m_path.length ∨ w.sol_expired = true
    · exact ⟨_, movement_loop_terminal w h1, rfl⟩
    · rcases h with h | h
      · exact absurd h h1
      · exact ⟨_, movement_loop_skip w h1 h, rfl⟩

/-- Witness for C9: the demo procedure at `(0, 50)` sends `(0, -50)` in its
first tick; after an invalidation the next tick sends nothing more. -/
theorem freshness_witness :
    ∃ w1 w2 w3, movement_loop (demo_sys (box_at 0 50) true true) = some w1 ∧
      w1.state.is_robot_box_fresh = false ∧
      run w1 [Event.invalidate] = some w2 ∧ movement_loop w2 = some w3 ∧
      w3.moves = w2.moves ∧ w3.proc.m_index = w2.proc.m_index := by
  obtain ⟨w1, hw1⟩ := movement_loop_total (demo_sys (box_at 0 50) true true) (Nat.zero_le _)
  have h := freshness_is_one_shot.1 (demo_sys (box_at 0 50) true true) w1
    (by simp [demo_sys, demo_path]) rfl rfl hw1
  obtain ⟨w2, w3, hr, hl, hm, hi⟩ := h.2 [Event.invalidate] (by
    intro e he
    rw [List.mem_singleton] at he
    subst he
    exact ⟨fun hc => Event.noConfusion hc, fun _ hc => Event.noConfusion hc⟩)
  exact ⟨w1, w2, w3, hw1, h.1, hr, hl, hm, hi⟩

/-! ## The done flag -/

/-- C10: `is_done()` is false after construction, and along every sequence of
events on a freshly constructed procedure (which always runs through), once
`is_done()` is true it is true after every later event. -/
theorem done_is_one_way (state : CompetitionState) (sol_expired : Bool)
    (path : List vector2d) (loc_accept norm_dev : ℚ) (evs more : List Event) :
    is_done (construct state sol_expired path loc_accept norm_dev) = false ∧
    ∃ w w1, run (construct state sol_expired path loc_accept norm_dev) evs = some w ∧
      run w more = some w1 ∧ (is_done w = true → is_done w1 = true) := by
  refine ⟨rfl, ?_⟩
  obtain ⟨w, hr, _, _, hb, _⟩ :=
    run_total evs (construct state sol_expired path loc_accept norm_dev) (Nat.zero_le _)
  obtain ⟨w1, hr1, _, _, _, hd⟩ := run_total more w hb
  exact ⟨w, w1, hr, hr1, hd⟩

/-- Witness for C10: on the empty path the procedure is done after `start()`
and one tick, and still done after a restart, a stop and another tick. -/
theorem done_witness :
    ∃ w w1, run (construct ⟨box_at 0 0, false, false⟩ false [] 5 20)
        [Event.start, Event.tick] = some w ∧
      run w [Event.start, Event.stop, Event.tick] = some w1 ∧
      is_done w = true ∧ is_done w1 = true := by
  obtain ⟨_, w, w1, hr, hr1, hd⟩ := done_is_one_way ⟨box_at 0 0, false, false⟩ false [] 5 20
    [Event.start, Event.tick] [Event.start, Event.stop, Event.tick]
  have hw : is_done w = true := by
    have hrun : run (construct ⟨box_at 0 0, false, false⟩ false [] 5 20)
        [Event.start, Event.tick] = some
          { start (construct ⟨box_at 0 0, false, false⟩ false [] 5 20) with
            proc := { (start (construct ⟨box_at 0 0, false, false⟩ false [] 5 20)).proc with
              m_timer := false, m_done := true }
            signals := (start (construct ⟨box_at 0 0, false, false⟩ false [] 5
              20)).signals ++ [Signal.finished] } := by
      simp only [run, step, Option.some_bind]
      have ht : timerEvent (start (construct ⟨box_at 0 0, false, false⟩ false [] 5 20))
          = movement_loop (start (construct ⟨box_at 0 0, false, false⟩ false [] 5 20)) := rfl
      rw [ht, movement_loop_terminal _ (Or.inl rfl)]
      rfl
    rw [hrun] at hr
    rw [← Option.some.inj hr]
    rfl
  exact ⟨w, w1, hr, hr1, hw, hd hw⟩


/-! ## Finished and running -/

/-- What a tick gives in a state whose index is within the path: the state
after it, how `done` can be true there, and that the timer cannot start. -/
theorem timerEvent_done (w : Sys) (h : w.proc.m_index ≤ w.proc.m_path.length)
    (hd : w.proc.m_done = true →
      w.proc.m_index = w.proc.m_path.length ∨ w.sol_expired = true) :
    ∃ w1, timerEvent w = some w1 ∧ w1.proc.m_index ≤ w1.proc.m_path.length ∧
      (w1.proc.m_done = true →
        w1.proc.m_index = w1.proc.m_path.length ∨ w1.sol_expired = true) ∧
      ((w.proc.m_done = true → w.proc.m_timer = false) →
        w1.proc.m_done = true → w1.proc.m_timer = false) := by
  unfold timerEvent
  by_cases ht : w.proc.m_timer = true
  · rw [if_pos ht]
    obtain ⟨w1, hw1⟩ := movement_loop_total w h
    refine ⟨w1, hw1, ?_⟩
    rcases movement_loop_cases w w1 hw1 with
      ⟨hc, rfl⟩ | ⟨_, _, rfl⟩ | ⟨hlt, hexp, _, _, rfl⟩ | ⟨hlt, hexp, _, _, v, _, rfl⟩
    · exact ⟨h, fun _ => hc, fun _ _ => rfl⟩
    · exact ⟨h, hd, fun hi => hi⟩
    · refine ⟨hlt, fun hdone => ?_, fun _ hdone => ?_⟩ <;>
      · rcases hd hdone with hc | hc
        · exact absurd hc (Nat.ne_of_lt hlt)
        · rw [hexp] at hc; cases hc
    · refine ⟨h, fun hdone => ?_, fun _ hdone => ?_⟩ <;>
      · rcases hd hdone with hc | hc
        · exact absurd hc (Nat.ne_of_lt hlt)
        · rw [hexp] at hc; cases hc
  · rw [if_neg ht]
    exact ⟨w, rfl, h, hd, fun hi => hi⟩

/-- Along every run, `done` is only true where the terminal condition holds. -/
theorem run_done_terminal (evs : List Event) :
    ∀ w : Sys, w.proc.m_index ≤ w.proc.m_path.length →
      (w.proc.m_done = true →
        w.proc.m_index = w.proc.m_path.length ∨ w.sol_expired = true) →
      ∃ w1, run w evs = some w1 ∧ w1.proc.m_index ≤ w1.proc.m_path.length ∧
        (w1.proc.m_done = true →
          w1.proc.m_index = w1.proc.m_path.length ∨ w1.sol_expired = true) ∧
        (no_restart w evs → (w.proc.m_done = true → w.proc.m_timer = false) →
          w1.proc.m_done = true → w1.proc.m_timer = false) := by
  induction evs with
  | nil => intro w h hd; exact ⟨w, rfl, h, hd, fun _ hi => hi⟩
  | cons e es ih =>
    intro w h hd
    have key : ∀ w1, step w e = some w1 → w1.proc.m_index ≤ w1.proc.m_path.length →
        (w1.proc.m_done = true →
          w1.proc.m_index = w1.proc.m_path.length ∨ w1.sol_expired = true) →
        (((e = Event.start → is_done w = false) →
          (w.proc.m_done = true → w.proc.m_timer = false) →
          w1.proc.m_done = true → w1.proc.m_timer = false)) →
        ∃ w2, run w (e :: es) = some w2 ∧ w2.proc.m_index ≤ w2.proc.m_path.length ∧
          (w2.proc.m_done = true →
            w2.proc.m_index = w2.proc.m_path.length ∨ w2.sol_expired = true) ∧
          (no_restart w (e :: es) → (w.proc.m_done = true → w.proc.m_timer = false) →
            w2.proc.m_done = true → w2.proc.m_timer = false) := by
      intro w1 hs h1 hd1 hi1
      obtain ⟨w2, hr, h2, hd2, hi2⟩ := ih w1 h1 hd1
      refine ⟨w2, by simp only [run, hs, Option.some_bind, hr], h2, hd2, ?_⟩
      intro hnr hi
      simp only [no_restart, hs] at hnr
      exact hi2 hnr.2 (hi1 hnr.1 hi)
    cases e with
    | tick =>
      obtain ⟨w1, hs, h1, hd1, hi1⟩ := timerEvent_done w h hd
      exact key w1 hs h1 hd1 (fun _ => hi1)
    | start =>
      refine key (start w) rfl h hd (fun hns _ hdone => ?_)
      have hnd : w.proc.m_done = false := hns rfl
      have hdone1 : w.proc.m_done = true := hdone
      rw [hnd] at hdone1
      cases hdone1
    | stop => exact key (stop w) rfl h hd (fun _ _ _ => rfl)
    | update box => exact key _ rfl h hd (fun _ hi => hi)
    | invalidate => exact key _ rfl h hd (fun _ hi => hi)
    | expire => exact key _ rfl h (fun _ => Or.inr rfl) (fun _ hi => hi)

/-- C11, as the code has it: in every state reached from construction through
start, stop and tick operations (with detector and controller events between
them), if `start()` was never called on a done procedure then `is_done()`
implies `is_stopped()`; and in every reachable state that is done, with or
without such a restart, the next tick takes the terminal branch again and
leaves the procedure done and stopped. -/
theorem done_implies_stopped_unless_restarted (state : CompetitionState)
    (sol_expired : Bool) (path : List vector2d) (loc_accept norm_dev : ℚ)
    (evs : List Event) :
    ∃ w, run (construct state sol_expired path loc_accept norm_dev) evs = some w ∧
      (no_restart (construct state sol_expired path loc_accept norm_dev) evs →
        is_done w = true → is_stopped w = true) ∧
      (is_done w = true →
        ∃ w1, step w Event.tick = some w1 ∧ is_done w1 = true ∧ is_stopped w1 = true) := by
  obtain ⟨w, hr, hb, hd, hi⟩ := run_done_terminal evs
    (construct state sol_expired path loc_accept norm_dev) (Nat.zero_le _)
    (fun hc => by cases hc)
  refine ⟨w, hr, fun hnr hdone => ?_, fun hdone => ?_⟩
  · have ht := hi hnr (fun hc => by cases hc) hdone
    simp only [is_stopped, ht, Bool.not_false]
  · by_cases ht : w.proc.m_timer = true
    · refine ⟨{ w with
          proc := { w.proc with m_timer := false, m_done := true }
          signals := w.signals ++ [Signal.finished] }, ?_, rfl, rfl⟩
      simp only [step, timerEvent, ht, if_true]
      exact movement_loop_terminal w (hd hdone)
    · refine ⟨w, ?_, hdone, ?_⟩
      · simp only [step, timerEvent, ht, if_false, Bool.false_eq_true]
      · simp only [is_stopped]
        cases hc : w.proc.m_timer
        · rfl
        · exact absurd hc ht

/-- Witness for C11: on the empty path, after `start()`, a tick and a stop,
with no restart, the procedure is done and stopped. -/
theorem done_and_stopped_witness :
    no_restart (construct ⟨box_at 0 0, false, false⟩ false [] 5 20)
      [Event.start, Event.tick, Event.stop] ∧
    ∃ w, run (construct ⟨box_at 0 0, false, false⟩ false [] 5 20)
        [Event.start, Event.tick, Event.stop] = some w ∧
      is_done w = true ∧ is_stopped w = true := by
  have hnr : no_restart (construct ⟨box_at 0 0, false, false⟩ false [] 5 20)
      [Event.start, Event.tick, Event.stop] := by
    simp [no_restart, step, timerEvent, movement_loop, start, construct, is_done]
  obtain ⟨w, hr, hstop, _⟩ := done_implies_stopped_unless_restarted
    ⟨box_at 0 0, false, false⟩ false [] 5 20 [Event.start, Event.tick, Event.stop]
  have hdone : is_done w = true := by
    simp [run, step, timerEvent, movement_loop, start, stop, construct] at hr
    rw [← hr]
    rfl
  exact ⟨hnr, w, hr, hdone, hstop hnr hdone⟩

/-- Counterexample to C11 as stated: on the empty path, `start()`, a tick and
a second `start()` reach a state that is done with the timer active. -/
theorem done_and_running_counterexample :
    ∃ w, run (construct ⟨box_at 0 0, false, false⟩ false [] 5 20)
        [Event.start, Event.tick, Event.start] = some w ∧
      is_done w = true ∧ is_stopped w = false := by
  simp [run, step, timerEvent, movement_loop, start, construct, is_done, is_stopped]


/-! ## The conversion to `int` -/

theorem static_cast_int_of_nonneg (q : ℚ) (h : 0 ≤ q) : static_cast_int q = ⌊q⌋ := by
  unfold static_cast_int
  rw [Int.tdiv_eq_ediv (Rat.num_nonneg.mpr h) (Int.ofNat_nonneg _), Rat.floor_def]

/-- Truncation of a non-negative value: the integer part. -/
theorem static_cast_int_bounds (q : ℚ) (h : 0 ≤ q) :
    ((static_cast_int q : Int) : ℚ) ≤ q ∧ q < ((static_cast_int q : Int) : ℚ) + 1 := by
  rw [static_cast_int_of_nonneg q h]
  exact ⟨Int.floor_le q, Int.lt_floor_add_one q⟩

theorem round_even_error (x : ℚ) : |((round_even x : Int) : ℚ) - x| ≤ 1 / 2 := by
  have h1 := Int.floor_le x
  have h2 := Int.lt_floor_add_one x
  unfold round_even
  split_ifs with ha hb hc
  · rw [abs_le]; constructor <;> linarith
  · push_cast; rw [abs_le]; constructor <;> linarith
  · rw [abs_le]; constructor <;> linarith
  · push_cast; rw [abs_le]; constructor <;> linarith

theorem round_even_eq (x : ℚ) (n : Int) (h1 : (n : ℚ) - 1 / 2 < x)
    (h2 : x < (n : ℚ) + 1 / 2) : round_even x = n := by
  unfold round_even
  rcases le_or_lt (n : ℚ) x with hle | hlt
  · have hf : ⌊x⌋ = n := Int.floor_eq_iff.mpr ⟨hle, by linarith⟩
    rw [hf, if_pos (by linarith)]
  · have hf : ⌊x⌋ = n - 1 :=
      Int.floor_eq_iff.mpr ⟨by push_cast; linarith, by push_cast; linarith⟩
    rw [hf]
    push_cast
    rw [if_neg (by linarith), if_pos (by linarith)]
    ring

/-- Rounding to a `double` moves a value by at most the unit roundoff times
its magnitude. -/
theorem round_binary64_error (q : ℚ) : |round_binary64 q - q| ≤ unit_roundoff * |q| := by
  unfold round_binary64
  by_cases hq : q = 0
  · rw [if_pos hq, hq]
    simp
  · rw [if_neg hq]
    have habs : 0 < |q| := abs_pos.mpr hq
    have hlow : (2 : ℚ) ^ Int.log 2 |q| ≤ |q| := by
      have := Int.zpow_log_le_self (by norm_num : 1 < 2) habs
      simpa using this
    have hulp : (0 : ℚ) < 2 ^ (Int.log 2 |q| - 52) := zpow_pos (by norm_num) _
    have herr := round_even_error (q / 2 ^ (Int.log 2 |q| - 52))
    have hsplit : ((round_even (q / 2 ^ (Int.log 2 |q| - 52)) : Int) : ℚ)
        * 2 ^ (Int.log 2 |q| - 52) - q =
        (((round_even (q / 2 ^ (Int.log 2 |q| - 52)) : Int) : ℚ)
          - q / 2 ^ (Int.log 2 |q| - 52)) * 2 ^ (Int.log 2 |q| - 52) := by
      field_simp
    rw [hsplit, abs_mul, abs_of_pos hulp]
    have hpow : (2 : ℚ) ^ (Int.log 2 |q| - 52) = 2 ^ Int.log 2 |q| / 2 ^ 52 := by
      rw [zpow_sub₀ (by norm_num)]
      norm_num
    calc |((round_even (q / 2 ^ (Int.log 2 |q| - 52)) : Int) : ℚ)
          - q / 2 ^ (Int.log 2 |q| - 52)| * 2 ^ (Int.log 2 |q| - 52)
        ≤ 1 / 2 * 2 ^ (Int.log 2 |q| - 52) := mul_le_mul_of_nonneg_right herr hulp.le
      _ = unit_roundoff * 2 ^ Int.log 2 |q| := by
          rw [hpow]
          unfold unit_roundoff
          ring
      _ ≤ unit_roundoff * |q| := by
          apply mul_le_mul_of_nonneg_left hlow
          unfold unit_roundoff
          positivity

/-- The `double` of a positive value, from its binade and the integer nearest
to its scaled significand. -/
theorem round_binary64_eq_of_pos (q : ℚ) (e n : Int) (h1 : (2 : ℚ) ^ e ≤ q)
    (h2 : q < (2 : ℚ) ^ (e + 1)) (hn1 : (n : ℚ) - 1 / 2 < q / 2 ^ (e - 52))
    (hn2 : q / 2 ^ (e - 52) < (n : ℚ) + 1 / 2) :
    round_binary64 q = n * 2 ^ (e - 52) := by
  have hpos : 0 < q := lt_of_lt_of_le (zpow_pos (by norm_num) e) h1
  have hq : q ≠ 0 := ne_of_gt hpos
  have hlog : Int.log 2 |q| = e := by
    rw [abs_of_pos hpos]
    have ha : e ≤ Int.log 2 q :=
      (Int.zpow_le_iff_le_log (by norm_num : 1 < 2) hpos).mp (by simpa using h1)
    have hb : Int.log 2 q < e + 1 :=
      (Int.lt_zpow_iff_log_lt (by norm_num : 1 < 2) hpos).mp (by simpa using h2)
    omega
  unfold round_binary64
  rw [if_neg hq, hlog, round_even_eq _ n hn1 hn2]

theorem unit_roundoff_nonneg : 0 ≤ unit_roundoff := by
  unfold unit_roundoff
  positivity

/-- Multiplying by the rounded inverse: two roundings. -/
theorem mul_inv_error (x s : ℚ) :
    |round_binary64 (x * round_binary64 (1 / s)) - x / s| ≤
      (2 * unit_roundoff + unit_roundoff ^ 2) * |x / s| := by
  have hu := unit_roundoff_nonneg
  have h1 := round_binary64_error (1 / s)
  have h2 := round_binary64_error (x * round_binary64 (1 / s))
  have hxs : x / s = x * (1 / s) := div_eq_mul_one_div x s
  have hd : |x * round_binary64 (1 / s) - x * (1 / s)| ≤ unit_roundoff * |x * (1 / s)| := by
    rw [← mul_sub, abs_mul, abs_mul]
    calc |x| * |round_binary64 (1 / s) - 1 / s| ≤ |x| * (unit_roundoff * |1 / s|) :=
          mul_le_mul_of_nonneg_left h1 (abs_nonneg x)
      _ = unit_roundoff * (|x| * |1 / s|) := by ring
  have hm : |x * round_binary64 (1 / s)| ≤ |x * (1 / s)| + unit_roundoff * |x * (1 / s)| := by
    have h3 := abs_sub_abs_le_abs_sub (x * round_binary64 (1 / s)) (x * (1 / s))
    linarith
  have htri := abs_sub_le (round_binary64 (x * round_binary64 (1 / s)))
    (x * round_binary64 (1 / s)) (x * (1 / s))
  have hA := abs_nonneg (x * (1 / s))
  rw [hxs]
  have h4 : unit_roundoff * |x * round_binary64 (1 / s)| ≤
      unit_roundoff * (|x * (1 / s)| + unit_roundoff * |x * (1 / s)|) :=
    mul_le_mul_of_nonneg_left hm hu
  nlinarith

/-- Dividing, one rounding, against multiplying by the rounded inverse. -/
theorem mul_inv_div_error (x s : ℚ) :
    |round_binary64 (x * round_binary64 (1 / s)) - round_binary64 (x / s)| ≤
      (3 * unit_roundoff + unit_roundoff ^ 2) * |x / s| := by
  have h1 := mul_inv_error x s
  have h2 := round_binary64_error (x / s)
  have htri := abs_sub_le (round_binary64 (x * round_binary64 (1 / s))) (x / s)
    (round_binary64 (x / s))
  rw [abs_sub_comm (x / s) (round_binary64 (x / s))] at htri
  linarith

/-! ## Setting the path -/

theorem foldl_append_path (f g : vector2i → ℚ) (l : List vector2i) :
    ∀ st : PathState,
      (l.foldl (fun st p => st.append_path (f p) (g p)) st).m_path =
        st.m_path ++ l.map fun p => ⟨f p, g p⟩ := by
  induction l with
  | nil => intro st; simp
  | cons p ps ih =>
    intro st
    simp only [List.foldl]
    rw [ih]
    simp [PathState.append_path]

/-- C13, as the code has it: for every list of integer pixel points and every
non-zero combined scale `s`, after `set_path` the stored path is the input list
mapped point by point to `(x * inv, y * inv)`, with `inv` the `double`
`1.0 / s` and each product rounded to a `double`, in the same order and of the
same length, whatever the path held before.  Each stored coordinate is within
the relative error `2u + u²` of `x / s` (`u = 2^-53`), and within `3u + u²` of
the rounded quotient that `add_path_point` appends for the same pixel. -/
theorem set_path_stores_rounded_products (v : ImageViewer) (state : PathState)
    (pixel_path : List vector2i) (_hs : ImageViewer.rounded.combined_scale v ≠ 0) :
    (ImageViewer.rounded.set_path v state pixel_path).m_path =
        pixel_path.map (fun p =>
          ⟨round_binary64 ((p.x : ℚ) * ImageViewer.rounded.inv_scale v),
            round_binary64 ((p.y : ℚ) * ImageViewer.rounded.inv_scale v)⟩) ∧
      (ImageViewer.rounded.set_path v state pixel_path).m_path.length = pixel_path.length ∧
      ∀ p : vector2i, p ∈ pixel_path →
        |round_binary64 ((p.x : ℚ) * ImageViewer.rounded.inv_scale v)
            - (p.x : ℚ) / ImageViewer.rounded.combined_scale v| ≤
          (2 * unit_roundoff + unit_roundoff ^ 2)
            * |(p.x : ℚ) / ImageViewer.rounded.combined_scale v| ∧
        |round_binary64 ((p.y : ℚ) * ImageViewer.rounded.inv_scale v)
            - (p.y : ℚ) / ImageViewer.rounded.combined_scale v| ≤
          (2 * unit_roundoff + unit_roundoff ^ 2)
            * |(p.y : ℚ) / ImageViewer.rounded.combined_scale v| ∧
        ∀ st : PathState, ∃ a : vector2d,
          (ImageViewer.rounded.add_path_point v st (p.x : ℚ) (p.y : ℚ)).m_path =
            st.m_path ++ [a] ∧
          |round_binary64 ((p.x : ℚ) * ImageViewer.rounded.inv_scale v) - a.x| ≤
            (3 * unit_roundoff + unit_roundoff ^ 2)
              * |(p.x : ℚ) / ImageViewer.rounded.combined_scale v| ∧
          |round_binary64 ((p.y : ℚ) * ImageViewer.rounded.inv_scale v) - a.y| ≤
            (3 * unit_roundoff + unit_roundoff ^ 2)
              * |(p.y : ℚ) / ImageViewer.rounded.combined_scale v| := by
  have hmap : (ImageViewer.rounded.set_path v state pixel_path).m_path =
      pixel_path.map (fun p =>
        ⟨round_binary64 ((p.x : ℚ) * ImageViewer.rounded.inv_scale v),
          round_binary64 ((p.y : ℚ) * ImageViewer.rounded.inv_scale v)⟩) := by
    simp only [ImageViewer.rounded.set_path, foldl_append_path, PathState.clear_path,
      List.nil_append, ImageViewer.rounded.inv_scale, ImageViewer.rounded.combined_scale]
  refine ⟨hmap, ?_, fun p _ => ⟨?_, ?_, fun st => ?_⟩⟩
  · rw [hmap, List.length_map]
  · exact mul_inv_error _ _
  · exact mul_inv_error _ _
  · exact ⟨⟨round_binary64 ((p.x : ℚ) / ImageViewer.rounded.combined_scale v),
      round_binary64 ((p.y : ℚ) / ImageViewer.rounded.combined_scale v)⟩, rfl,
      mul_inv_div_error _ _, mul_inv_div_error _ _⟩

theorem combined_scale_three_halves :
    ImageViewer.rounded.combined_scale ⟨3 / 2, 1⟩ = 3 / 2 := by
  have h : ImageViewer.rounded.combined_scale ⟨3 / 2, 1⟩ = round_binary64 (3 / 2 * 1) := rfl
  rw [h, round_binary64_eq_of_pos (3 / 2 * 1) 0 6755399441055744 (by norm_num)
    (by norm_num) (by norm_num) (by norm_num)]
  norm_num

theorem inv_scale_three_halves :
    ImageViewer.rounded.inv_scale ⟨3 / 2, 1⟩ = 6004799503160661 / 2 ^ 53 := by
  have h : ImageViewer.rounded.inv_scale ⟨3 / 2, 1⟩ =
      round_binary64 (1 / ImageViewer.rounded.combined_scale ⟨3 / 2, 1⟩) := rfl
  rw [h, combined_scale_three_halves,
    round_binary64_eq_of_pos (1 / (3 / 2)) (-1) 6004799503160661 (by norm_num)
      (by norm_num) (by norm_num) (by norm_num)]
  norm_num

theorem five_times_inv_scale :
    round_binary64 (5 * (6004799503160661 / 2 ^ 53)) = 7505999378950826 / 2 ^ 51 := by
  rw [round_binary64_eq_of_pos (5 * (6004799503160661 / 2 ^ 53)) 1 7505999378950826
    (by norm_num) (by norm_num) (by norm_num) (by norm_num)]
  norm_num

theorem five_over_three_halves :
    round_binary64 (5 / (3 / 2)) = 7505999378950827 / 2 ^ 51 := by
  rw [round_binary64_eq_of_pos (5 / (3 / 2)) 1 7505999378950827
    (by norm_num) (by norm_num) (by norm_num) (by norm_num)]
  norm_num

theorem set_path_three_halves (state : PathState) :
    (ImageViewer.rounded.set_path ⟨3 / 2, 1⟩ state [⟨5, 0⟩]).m_path =
      [⟨7505999378950826 / 2 ^ 51, 0⟩] := by
  have h : (ImageViewer.rounded.set_path ⟨3 / 2, 1⟩ state [⟨5, 0⟩]).m_path =
      [⟨round_binary64 (((5 : Int) : ℚ) * ImageViewer.rounded.inv_scale ⟨3 / 2, 1⟩),
        round_binary64 (((0 : Int) : ℚ) * ImageViewer.rounded.inv_scale ⟨3 / 2, 1⟩)⟩] := rfl
  have h0 : round_binary64 (((0 : Int) : ℚ) * (6004799503160661 / 2 ^ 53)) = 0 := by
    simp [round_binary64]
  have h5 : (((5 : Int) : ℚ)) = 5 := by norm_num
  rw [h, inv_scale_three_halves, h0, h5, five_times_inv_scale]

theorem add_path_point_three_halves :
    (ImageViewer.rounded.add_path_point ⟨3 / 2, 1⟩ ⟨[]⟩ 5 0).m_path =
      [⟨7505999378950827 / 2 ^ 51, 0⟩] := by
  have h : (ImageViewer.rounded.add_path_point ⟨3 / 2, 1⟩ ⟨[]⟩ 5 0).m_path =
      [⟨round_binary64 (5 / ImageViewer.rounded.combined_scale ⟨3 / 2, 1⟩),
        round_binary64 (0 / ImageViewer.rounded.combined_scale ⟨3 / 2, 1⟩)⟩] := rfl
  have h0 : round_binary64 (0 / (3 / 2)) = 0 := by
    simp [round_binary64]
  rw [h, combined_scale_three_halves, h0, five_over_three_halves]

/-- Witness for C13: zoom 3/2, pipeline scale 1, the pixel `(5, 0)` on a path
that held one point: the stored path is the one point
`(7505999378950826 / 2^51, 0)`, within `2u + u²` of `10/3`. -/
theorem set_path_rounded_witness :
    ImageViewer.rounded.combined_scale ⟨3 / 2, 1⟩ ≠ 0 ∧
    (ImageViewer.rounded.set_path ⟨3 / 2, 1⟩ ⟨[⟨7, 7⟩]⟩ [⟨5, 0⟩]).m_path =
      [⟨7505999378950826 / 2 ^ 51, 0⟩] ∧
    |(7505999378950826 / 2 ^ 51 : ℚ) - 5 / (3 / 2)| ≤
      (2 * unit_roundoff + unit_roundoff ^ 2) * |(5 : ℚ) / (3 / 2)| := by
  have hs : ImageViewer.rounded.combined_scale ⟨3 / 2, 1⟩ ≠ 0 := by
    rw [combined_scale_three_halves]
    norm_num
  obtain ⟨_, _, hb⟩ := set_path_stores_rounded_products ⟨3 / 2, 1⟩ ⟨[⟨7, 7⟩]⟩ [⟨5, 0⟩] hs
  obtain ⟨hx, _, _⟩ := hb ⟨5, 0⟩ (List.mem_singleton.mpr rfl)
  have h5 : (((⟨5, 0⟩ : vector2i).x : Int) : ℚ) = 5 := by norm_num
  rw [h5, inv_scale_three_halves, combined_scale_three_halves, five_times_inv_scale] at hx
  exact ⟨hs, set_path_three_halves _, hx⟩

/-- Counterexample to C13 as stated: at zoom 3/2 and pipeline scale 1,
`set_path` stores `5 * (1.0 / 1.5) = 7505999378950826 / 2^51` for the pixel
`(5, 0)`, where `add_path_point` appends `5 / 1.5 = 7505999378950827 / 2^51`;
neither is `10/3`. -/
theorem set_path_is_not_the_quotient_counterexample :
    ImageViewer.rounded.combined_scale ⟨3 / 2, 1⟩ ≠ 0 ∧
    (ImageViewer.rounded.set_path ⟨3 / 2, 1⟩ ⟨[]⟩ [⟨5, 0⟩]).m_path =
      [⟨7505999378950826 / 2 ^ 51, 0⟩] ∧
    (ImageViewer.rounded.add_path_point ⟨3 / 2, 1⟩ ⟨[]⟩ 5 0).m_path =
      [⟨7505999378950827 / 2 ^ 51, 0⟩] ∧
    (ImageViewer.rounded.set_path ⟨3 / 2, 1⟩ ⟨[]⟩ [⟨5, 0⟩]).m_path ≠
      (ImageViewer.rounded.add_path_point ⟨3 / 2, 1⟩ ⟨[]⟩ 5 0).m_path ∧
    (ImageViewer.rounded.set_path ⟨3 / 2, 1⟩ ⟨[]⟩ [⟨5, 0⟩]).m_path ≠
      [⟨5 / (3 / 2), 0 / (3 / 2)⟩] := by
  have hs : ImageViewer.rounded.combined_scale ⟨3 / 2, 1⟩ ≠ 0 := by
    rw [combined_scale_three_halves]
    norm_num
  refine ⟨hs, set_path_three_halves _, add_path_point_three_halves, ?_, ?_⟩
  · rw [set_path_three_halves, add_path_point_three_halves]
    intro hc
    have hx := congrArg (fun l : List vector2d => l.map vector2d.x) hc
    norm_num at hx
  · rw [set_path_three_halves]
    intro hc
    have hx := congrArg (fun l : List vector2d => l.map vector2d.x) hc
    norm_num at hx

/-! ## Path reads -/

/-- An event other than `start()` keeps the captured initial position, and
cannot activate the timer. -/
theorem step_keeps_initial (w w1 : Sys) (e : Event) (hs : step w e = some w1)
    (hne : e ≠ Event.start) :
    w1.proc.m_initial = w.proc.m_initial ∧
      (w1.proc.m_timer = true → w.proc.m_timer = true) := by
  cases e with
  | start => exact absurd rfl hne
  | stop =>
    cases hs
    exact ⟨rfl, fun hc => by cases hc⟩
  | tick =>
    simp only [step, timerEvent] at hs
    by_cases ht : w.proc.m_timer = true
    · rw [if_pos ht] at hs
      rcases movement_loop_cases w w1 hs with
        ⟨_, rfl⟩ | ⟨_, _, rfl⟩ | ⟨_, _, _, _, rfl⟩ | ⟨_, _, _, _, v, _, rfl⟩
      · exact ⟨rfl, fun _ => ht⟩
      · exact ⟨rfl, fun _ => ht⟩
      · exact ⟨rfl, fun _ => ht⟩
      · exact ⟨rfl, fun _ => ht⟩
    · rw [if_neg ht] at hs
      cases hs
      exact ⟨rfl, fun hc => hc⟩
  | update box =>
    cases hs
    exact ⟨rfl, fun hc => hc⟩
  | invalidate =>
    cases hs
    exact ⟨rfl, fun hc => hc⟩
  | expire =>
    cases hs
    exact ⟨rfl, fun hc => hc⟩

/-- While the timer is active, the initial position is the centre of the robot
box as it was at the last `start()`. -/
theorem run_initial_captured (w0 : Sys) (h0 : w0.proc.m_timer = false)
    (evs : List Event) :
    ∀ w, run w0 evs = some w → w.proc.m_timer = true →
      ∃ pre post wpre, evs = pre ++ Event.start :: post ∧ Event.start ∉ post ∧
        run w0 pre = some wpre ∧
        w.proc.m_initial = algo.rect_center wpre.state.m_robot_box := by
  induction evs using List.reverseRecOn with
  | nil =>
    intro w hr ht
    cases hr
    rw [h0] at ht
    cases ht
  | append_singleton init e ih =>
    intro w hr ht
    rw [run_append] at hr
    cases hi : run w0 init with
    | none =>
      rw [hi] at hr
      cases hr
    | some wi =>
      rw [hi, Option.some_bind] at hr
      have hstep : step wi e = some w := by
        simp only [run] at hr
        cases hse : step wi e with
        | none =>
          rw [hse] at hr
          cases hr
        | some w2 =>
          rw [hse, Option.some_bind] at hr
          exact hr
      by_cases he : e = Event.start
      · subst he
        cases hstep
        exact ⟨init, [], wi, rfl, List.not_mem_nil _, hi, rfl⟩
      · obtain ⟨hin, htm⟩ := step_keeps_initial wi w e hstep he
        obtain ⟨pre, post, wpre, hev, hns, hpre, hinit⟩ := ih wi hi (htm ht)
        refine ⟨pre, post ++ [e], wpre, ?_, ?_, hpre, ?_⟩
        · rw [hev, List.append_assoc, List.cons_append]
        · intro hc
          rcases List.mem_append.mp hc with hc | hc
          · exact hns hc
          · rw [List.mem_singleton] at hc
            exact he hc.symm
        · rw [hin, hinit]

/-- C14: in every state reached from construction through start, stop and
tick operations (with detector and controller events between them) a tick
returns without an out-of-bounds read; when it goes on to read the path (no
terminal condition, box fresh and valid) the index is strictly below the path
length, so `m_path[m_index]` exists; `m_path[m_index - 1]` is read only for an
index of at least 1 and exists then; and for index 0 the source is `m_initial`,
which, the timer being active, is the centre of the robot box as it was at the
last `start()`. -/
theorem path_reads_in_bounds (state : CompetitionState) (sol_expired : Bool)
    (path : List vector2d) (loc_accept norm_dev : ℚ) (evs : List Event) :
    ∃ w, run (construct state sol_expired path loc_accept norm_dev) evs = some w ∧
      (∃ w1, step w Event.tick = some w1) ∧ (∃ w1, movement_loop w = some w1) ∧
      (¬ (w.proc.m_index = w.proc.m_path.length ∨ w.sol_expired = true) →
        w.state.is_robot_box_fresh = true → w.state.is_robot_box_valid = true →
        w.proc.m_index < w.proc.m_path.length ∧
        ∃ target source, w.proc.m_path[w.proc.m_index]? = some target ∧
          (if w.proc.m_index > 0 then w.proc.m_path[w.proc.m_index - 1]?
            else some w.proc.m_initial) = some source ∧
          (0 < w.proc.m_index → 1 ≤ w.proc.m_index ∧
            w.proc.m_index - 1 < w.proc.m_path.length ∧
            w.proc.m_path[w.proc.m_index - 1]? = some source) ∧
          (w.proc.m_index = 0 → source = w.proc.m_initial ∧
            (w.proc.m_timer = true →
              ∃ pre post wpre, evs = pre ++ Event.start :: post ∧ Event.start ∉ post ∧
                run (construct state sol_expired path loc_accept norm_dev) pre = some wpre ∧
                w.proc.m_initial = algo.rect_center wpre.state.m_robot_box))) := by
  obtain ⟨w, hr, _, _, hb, _⟩ :=
    run_total evs (construct state sol_expired path loc_accept norm_dev) (Nat.zero_le _)
  obtain ⟨w1, hs, _⟩ := step_total w Event.tick hb
  refine ⟨w, hr, ⟨w1, hs⟩, movement_loop_total w hb, fun h1 _ _ => ?_⟩
  have hlt : w.proc.m_index < w.proc.m_path.length :=
    lt_of_le_of_ne hb (fun hc => h1 (Or.inl hc))
  obtain ⟨target, source, ht, hsrc⟩ := reads_in_bounds w hlt
  refine ⟨hlt, target, source, ht, hsrc, fun hpos => ?_, fun hz => ?_⟩
  · rw [if_pos hpos] at hsrc
    exact ⟨hpos, by omega, hsrc⟩
  · have hnp : ¬ w.proc.m_index > 0 := by omega
    rw [if_neg hnp] at hsrc
    exact ⟨(Option.some.inj hsrc).symm, fun htm =>
      run_initial_captured _ rfl evs w hr htm⟩

/-- Witness for C14: on the demo path, with the box at `(3, 4)` when `start()`
is called and a fresh box at `(0, 50)` afterwards, the tick reads
`m_path[0]` and takes the captured `(3, 4)` as its source. -/
theorem path_reads_witness :
    ∃ w, run (construct ⟨box_at 3 4, false, false⟩ false demo_path 5 20)
        [Event.start, Event.update (box_at 0 50)] = some w ∧
      w.proc.m_index < w.proc.m_path.length ∧
      ∃ target source, w.proc.m_path[w.proc.m_index]? = some target ∧
        (if w.proc.m_index > 0 then w.proc.m_path[w.proc.m_index - 1]?
          else some w.proc.m_initial) = some source ∧
        source = algo.rect_center (box_at 3 4) := by
  obtain ⟨w, hr, _, _, h⟩ := path_reads_in_bounds ⟨box_at 3 4, false, false⟩ false
    demo_path 5 20 [Event.start, Event.update (box_at 0 50)]
  have hw : w = { start (construct ⟨box_at 3 4, false, false⟩ false demo_path 5 20) with
      state := (start (construct ⟨box_at 3 4, false, false⟩ false demo_path 5
        20)).state.update (box_at 0 50) } := by
    have hrun : run (construct ⟨box_at 3 4, false, false⟩ false demo_path 5 20)
        [Event.start, Event.update (box_at 0 50)] = some
          { start (construct ⟨box_at 3 4, false, false⟩ false demo_path 5 20) with
            state := (start (construct ⟨box_at 3 4, false, false⟩ false demo_path 5
              20)).state.update (box_at 0 50) } := rfl
    rw [hrun] at hr
    exact (Option.some.inj hr).symm
  have h1 : ¬ (w.proc.m_index = w.proc.m_path.length ∨ w.sol_expired = true) := by
    rw [hw]
    simp [start, construct, demo_path]
  have hf : w.state.is_robot_box_fresh = true := by rw [hw]; rfl
  have hv : w.state.is_robot_box_valid = true := by rw [hw]; rfl
  obtain ⟨hlt, target, source, ht, hsrc, _, hz⟩ := h h1 hf hv
  have hidx : w.proc.m_index = 0 := by rw [hw]; rfl
  have hinit : w.proc.m_initial = algo.rect_center (box_at 3 4) := by rw [hw]; rfl
  exact ⟨w, hr, hlt, target, source, ht, hsrc, by rw [(hz hidx).1, hinit]⟩


/-! ## The power of a command -/

theorem static_cast_int_abs_nonneg (q : ℚ) : 0 ≤ static_cast_int |q| := by
  rw [static_cast_int_of_nonneg _ (abs_nonneg q)]
  exact Int.floor_nonneg.mpr (abs_nonneg q)

theorem static_cast_int_abs_ge_one (q : ℚ) (h : 1 ≤ |q|) : 1 ≤ static_cast_int |q| := by
  rw [static_cast_int_of_nonneg _ (abs_nonneg q)]
  exact Int.le_floor.mpr (by exact_mod_cast h)

/-- The component `axis_command` sets has the truncated dominant error
magnitude as its absolute value; the other component is 0. -/
theorem axis_command_power (target c err : vector2d) :
    (|err.x| > |err.y| →
      |(axis_command target c err).x| = static_cast_int |err.x| ∧
        (axis_command target c err).y = 0) ∧
    (¬ |err.x| > |err.y| →
      |(axis_command target c err).y| = static_cast_int |err.y| ∧
        (axis_command target c err).x = 0) := by
  unfold axis_command
  constructor
  · intro hax
    rw [if_pos hax]
    by_cases hd : target.x > c.x
    · rw [if_pos hd]
      exact ⟨abs_of_nonneg (static_cast_int_abs_nonneg _), rfl⟩
    · rw [if_neg hd]
      exact ⟨by rw [abs_neg]; exact abs_of_nonneg (static_cast_int_abs_nonneg _), rfl⟩
  · intro hax
    rw [if_neg hax]
    by_cases hd : target.y > c.y
    · rw [if_pos hd]
      exact ⟨abs_of_nonneg (static_cast_int_abs_nonneg _), rfl⟩
    · rw [if_neg hd]
      exact ⟨by rw [abs_neg]; exact abs_of_nonneg (static_cast_int_abs_nonneg _), rfl⟩

/-- An error of squared length at least 2 has a dominant component of
magnitude at least 1. -/
theorem dominant_ge_one (x y : ℚ) (h : 2 ≤ x * x + y * y) :
    (|x| > |y| → 1 ≤ |x|) ∧ (¬ |x| > |y| → 1 ≤ |y|) := by
  have hx : x * x = |x| * |x| := (abs_mul_abs_self x).symm
  have hy : y * y = |y| * |y| := (abs_mul_abs_self y).symm
  rw [hx, hy] at h
  have hx0 := abs_nonneg x
  have hy0 := abs_nonneg y
  constructor
  · intro hgt
    by_contra hc
    push_neg at hc
    nlinarith
  · intro hle
    push_neg at hle
    by_contra hc
    push_neg at hc
    nlinarith

/-- C15: in a tick that reaches the movement decision with the (possibly
overridden) error `err`, the one command sent has, on the dominant axis, the
absolute value `static_cast<int>(|err|)`, which is `|err|` truncated toward
zero (`power ≤ |err| < power + 1`), and 0 on the other axis; if the acceptance
radius satisfies `r > 0` and `r * r ≥ 2` and the deviation threshold satisfies
`d * d ≥ 2`, that absolute value is at least 1, so the command is never the
zero vector. -/
theorem command_power_at_least_one (w : Sys)
    (target source foot err : vector2d)
    (hexp : w.sol_expired = false)
    (hf : w.state.is_robot_box_fresh = true) (hv : w.state.is_robot_box_valid = true)
    (ht : w.proc.m_path[w.proc.m_index]? = some target)
    (hs : (if w.proc.m_index > 0 then w.proc.m_path[w.proc.m_index - 1]?
        else some w.proc.m_initial) = some source)
    (hacc : ¬ hypot_lt (target.x - (current w).x) (target.y - (current w).y)
      w.proc.m_loc_accept)
    (hfoot : foot = algo.perp_intersect (current w) source target)
    (herr : err = if (foot - current w).norm_sq > w.proc.m_norm_dev * w.proc.m_norm_dev
      then foot - current w else target - current w)
    (hr : 0 < w.proc.m_loc_accept)
    (hr2 : 2 ≤ w.proc.m_loc_accept * w.proc.m_loc_accept)
    (hd2 : 2 ≤ w.proc.m_norm_dev * w.proc.m_norm_dev) :
    ∃ w1 v, movement_loop w = some w1 ∧ w1.moves = w.moves ++ [v] ∧
      (|err.x| > |err.y| →
        |v.x| = static_cast_int |err.x| ∧ v.y = 0 ∧ 1 ≤ |v.x|) ∧
      (¬ |err.x| > |err.y| →
        |v.y| = static_cast_int |err.y| ∧ v.x = 0 ∧ 1 ≤ |v.y|) ∧
      (((static_cast_int |err.x| : Int) : ℚ) ≤ |err.x| ∧
        |err.x| < ((static_cast_int |err.x| : Int) : ℚ) + 1) ∧
      (((static_cast_int |err.y| : Int) : ℚ) ≤ |err.y| ∧
        |err.y| < ((static_cast_int |err.y| : Int) : ℚ) + 1) := by
  obtain ⟨h1, h2⟩ := decision_premises w target hexp hf hv ht
  have hloop := movement_loop_decide w target source h1 h2 ht hs hacc
  subst hfoot
  simp only [current] at herr hacc
  have hbig : 2 ≤ err.x * err.x + err.y * err.y := by
    by_cases hov : (algo.perp_intersect (algo.rect_center w.state.m_robot_box) source target
        - algo.rect_center w.state.m_robot_box).norm_sq
        > w.proc.m_norm_dev * w.proc.m_norm_dev
    · rw [if_pos hov] at herr
      subst herr
      have hov1 : w.proc.m_norm_dev * w.proc.m_norm_dev <
          (algo.perp_intersect (algo.rect_center w.state.m_robot_box) source target
            - algo.rect_center w.state.m_robot_box).norm_sq := hov
      unfold vector2d.norm_sq at hov1
      linarith
    · rw [if_neg hov] at herr
      subst herr
      have hge : ¬ ((target.x - (algo.rect_center w.state.m_robot_box).x) *
          (target.x - (algo.rect_center w.state.m_robot_box).x) +
          (target.y - (algo.rect_center w.state.m_robot_box).y) *
          (target.y - (algo.rect_center w.state.m_robot_box).y) <
          w.proc.m_loc_accept * w.proc.m_loc_accept) := fun hc => hacc ⟨hr, hc⟩
      have hx : (target - algo.rect_center w.state.m_robot_box).x =
          target.x - (algo.rect_center w.state.m_robot_box).x := rfl
      have hy : (target - algo.rect_center w.state.m_robot_box).y =
          target.y - (algo.rect_center w.state.m_robot_box).y := rfl
      rw [hx, hy]
      linarith
  obtain ⟨hdx, hdy⟩ := dominant_ge_one err.x err.y hbig
  have hcmd : ∃ tgt, (if (algo.perp_intersect (algo.rect_center w.state.m_robot_box) source
      target - algo.rect_center w.state.m_robot_box).norm_sq
        > w.proc.m_norm_dev * w.proc.m_norm_dev then
      axis_command
        (algo.perp_intersect (algo.rect_center w.state.m_robot_box) source target)
        (algo.rect_center w.state.m_robot_box)
        (algo.perp_intersect (algo.rect_center w.state.m_robot_box) source target
          - algo.rect_center w.state.m_robot_box)
      else axis_command target (algo.rect_center w.state.m_robot_box)
        (target - algo.rect_center w.state.m_robot_box)) =
      axis_command tgt (algo.rect_center w.state.m_robot_box) err := by
    by_cases hov : (algo.perp_intersect (algo.rect_center w.state.m_robot_box) source target
        - algo.rect_center w.state.m_robot_box).norm_sq
        > w.proc.m_norm_dev * w.proc.m_norm_dev
    · rw [if_pos hov] at herr ⊢
      exact ⟨_, by rw [herr]⟩
    · rw [if_neg hov] at herr ⊢
      exact ⟨_, by rw [herr]⟩
  obtain ⟨tgt, hcmd⟩ := hcmd
  rw [hcmd] at hloop
  obtain ⟨hpx, hpy⟩ := axis_command_power tgt (algo.rect_center w.state.m_robot_box) err
  refine ⟨_, axis_command tgt (algo.rect_center w.state.m_robot_box) err, hloop, rfl,
    fun hax => ?_, fun hax => ?_,
    static_cast_int_bounds _ (abs_nonneg _), static_cast_int_bounds _ (abs_nonneg _)⟩
  · obtain ⟨ha, hb⟩ := hpx hax
    exact ⟨ha, hb, by rw [ha]; exact static_cast_int_abs_ge_one _ (hdx hax)⟩
  · obtain ⟨ha, hb⟩ := hpy hax
    exact ⟨ha, hb, by rw [ha]; exact static_cast_int_abs_ge_one _ (hdy hax)⟩

/-- Witness for C15: the demo procedure (radius 5, threshold 20) at `(0, 50)`:
the error is the overridden `(0, -50)` and the command has `|Y| = 50`. -/
theorem command_power_witness :
    ∃ w1 v, movement_loop (demo_sys (box_at 0 50) true true) = some w1 ∧
      w1.moves = [v] ∧ v.x = 0 ∧ 1 ≤ |v.y| := by
  have hc : current (demo_sys (box_at 0 50) true true) = ⟨0, 50⟩ := by
    simp only [current, demo_sys, algo.rect_center, box_at]
    norm_num
  have hfoot : algo.perp_intersect (current (demo_sys (box_at 0 50) true true))
      ⟨0, 0⟩ ⟨100, 0⟩ = ⟨0, 0⟩ := by
    rw [hc]
    simp only [algo.perp_intersect]
    norm_num
  have hsub : (⟨0, 0⟩ : vector2d) - ⟨0, 50⟩ = ⟨0, -50⟩ := by
    show vector2d.sub _ _ = _
    simp only [vector2d.sub]
    norm_num
  have hacc : ¬ hypot_lt ((⟨100, 0⟩ : vector2d).x -
      (current (demo_sys (box_at 0 50) true true)).x)
      ((⟨100, 0⟩ : vector2d).y - (current (demo_sys (box_at 0 50) true true)).y)
      (demo_sys (box_at 0 50) true true).proc.m_loc_accept := by
    rw [hc]
    simp only [hypot_lt, demo_sys]
    norm_num
  have herr : (⟨0, -50⟩ : vector2d) =
      if ((⟨0, 0⟩ : vector2d) - current (demo_sys (box_at 0 50) true true)).norm_sq
          > (demo_sys (box_at 0 50) true true).proc.m_norm_dev
            * (demo_sys (box_at 0 50) true true).proc.m_norm_dev
      then (⟨0, 0⟩ : vector2d) - current (demo_sys (box_at 0 50) true true)
      else (⟨100, 0⟩ : vector2d) - current (demo_sys (box_at 0 50) true true) := by
    rw [hc, hsub, if_pos]
    simp only [vector2d.norm_sq, demo_sys]
    norm_num
  obtain ⟨w1, v, hw1, hm, _, hy, _, _⟩ := command_power_at_least_one
    (demo_sys (box_at 0 50) true true) ⟨100, 0⟩ ⟨0, 0⟩ ⟨0, 0⟩ ⟨0, -50⟩
    rfl rfl rfl rfl rfl hacc hfoot.symm herr
    (by simp only [demo_sys]; norm_num) (by simp only [demo_sys]; norm_num)
    (by simp only [demo_sys]; norm_num)
  have hax : ¬ |(⟨0, -50⟩ : vector2d).x| > |(⟨0, -50⟩ : vector2d).y| := by
    show ¬ |(0 : ℚ)| > |(-50 : ℚ)|
    norm_num
  obtain ⟨_, hvx, hvy⟩ := hy hax
  exact ⟨w1, v, hw1, hm, hvx, hvy⟩

end Minotaur
